import Mathlib

/-!
Shallow embedding of the Mandrill toolchain (lexer, parsers, code
generator, bytecode writer and loader, stack virtual machine, and the
tree-walking interpreter), with theorems settling the specification
claims about it.  Python integers are modelled as `Int`/`Nat`; Python
floor division `//` and floor modulus `%` are `Int.fdiv`/`Int.fmod`;
the nonnegative modulus used for truncation is `Int.emod`.  Stacks are
lists whose head is the top of the stack.  Fallible code returns
`Except String`.
-/

/-- Decidable equality of `Except` values, used to evaluate embedded
computations inside `decide`. -/
instance {ε α : Type} [DecidableEq ε] [DecidableEq α] : DecidableEq (Except ε α) :=
  fun x y =>
    match x, y with
    | .ok a, .ok b =>
      if h : a = b then isTrue (by rw [h]) else isFalse (by simp [h])
    | .error a, .error b =>
      if h : a = b then isTrue (by rw [h]) else isFalse (by simp [h])
    | .ok _, .error _ => isFalse (by simp)
    | .error _, .ok _ => isFalse (by simp)

namespace Mandrill

/-- Named characters, so no brace or quote character literals appear. -/
def squote : Char := Char.ofNat 39

def bslashChar : Char := Char.ofNat 92

def lbrace : Char := Char.ofNat 123

def rbrace : Char := Char.ofNat 125

/-! ## Virtual machine (vm.py) -/

/-- Instruction opcodes, from `MandrillVM.__init__`. -/
def NOP : Nat := 0x00000000

def DSTORE : Nat := 0x00000001

def DLOAD : Nat := 0x00000002

def DWRITE : Nat := 0x00000003

def EVAL : Nat := 0x00000005

def JUMP : Nat := 0x00000006

def GETI : Nat := 0x00000007

def GETC : Nat := 0x00000008

def PUTI : Nat := 0x00000009

def PUTC : Nat := 0x0000000A

def OP_ADD : Nat := 0x00010001

def OP_SUB : Nat := 0x00010002

def OP_MUL : Nat := 0x00010003

def OP_DIV : Nat := 0x00010004

def OP_MOD : Nat := 0x00010005

def OP_GT : Nat := 0x00010006

def OP_LT : Nat := 0x00010007

def OP_GE : Nat := 0x00010008

def OP_LE : Nat := 0x00010009

def OP_EQ : Nat := 0x0001000A

def OP_NE : Nat := 0x0001000B

def OP_COND_JUMP : Nat := 0x0001000C

/-- The halt sentinel operand of `JUMP`. -/
def HALT_SENTINEL : Nat := 0xFFFFFFFF

/-- `MandrillVM._to_32bit_int`: wrap a value to signed 32-bit
two's complement, returning in-range values unchanged. -/
def to32bit (value : Int) : Int :=
  if -2147483648 ≤ value ∧ value ≤ 2147483647 then value
  else (value + 2147483647 + 1) % 4294967296 + (-2147483648)

/-- Python `int(token)` restricted to the shapes the VM input can
contain: an optional sign followed by a nonempty run of decimal
digits.  Returns `none` when the token is not an integer literal. -/
def digitsVal? : List Char → Option Nat
  | [] => none
  | cs =>
    if cs.all Char.isDigit then
      some (cs.foldl (fun acc c => acc * 10 + (c.toNat - 48)) 0)
    else none

def pyInt? (s : String) : Option Int :=
  match s.toList with
  | [] => none
  | c :: rest =>
    if c = '-' then (digitsVal? rest).map (fun n => -(n : Int))
    else if c = '+' then (digitsVal? rest).map (fun n => (n : Int))
    else (digitsVal? (c :: rest)).map (fun n => (n : Int))

/-- `MandrillVM._get_next_int`: skip non-integer tokens; end of input
yields 0.  The consumed token position is modelled by returning the
remaining token list. -/
def getNextInt : List String → Int × List String
  | [] => (0, [])
  | t :: rest =>
    match pyInt? t with
    | some n => (n, rest)
    | none => getNextInt rest

/-- `MandrillVM._get_next_char`: next byte of the raw input, or 0 at
end of input. -/
def getNextChar : List Char → Int × List Char
  | [] => (0, [])
  | c :: rest => ((c.toNat : Int), rest)

/-- `MandrillVM.execute_eval_optimized`.  The stack is a list with its
head on top, so Python `stack[-1]` is the head; the result is the new
stack and the new program counter (only `COND_JUMP` changes it).
Accessing a missing stack slot is Python's `IndexError`. -/
def executeEvalOptimized (operand : Nat) (stack : List Int) (pc : Int) :
    Except String (List Int × Int) :=
  if operand = OP_COND_JUMP then
    match stack with
    | elseAddr :: thenAddr :: condition :: rest =>
      if condition ≠ 0 then .ok (rest, thenAddr.fdiv 8 - 1)
      else .ok (rest, elseAddr.fdiv 8 - 1)
    | _ => .error "list index out of range"
  else
    match stack with
    | right :: left :: rest =>
      let push : Int → Except String (List Int × Int) :=
        fun result => .ok (result :: rest, pc)
      if operand = OP_MUL then
        if left = 0 ∨ right = 0 then push 0
        else if left = 1 then push right
        else if right = 1 then push left
        else push (left * right)
      else if operand = OP_ADD then push (left + right)
      else if operand = OP_SUB then push (to32bit (left - right))
      else if operand = OP_DIV then
        if right = 0 then .error "Division by zero"
        else push (to32bit (left.fdiv right))
      else if operand = OP_MOD then
        if right = 0 then .error "Division by zero"
        else
          let modResult := left.fmod right
          let modResult := if right > 0 ∧ modResult < 0 then modResult + right
            else modResult
          push (to32bit modResult)
      else if operand = OP_EQ then push (if left = right then 1 else 0)
      else if operand = OP_NE then push (if left ≠ right then 1 else 0)
      else if operand = OP_GT then push (if left > right then 1 else 0)
      else if operand = OP_LT then push (if left < right then 1 else 0)
      else if operand = OP_GE then push (if left ≥ right then 1 else 0)
      else if operand = OP_LE then push (if left ≤ right then 1 else 0)
      else .error "Unknown eval operand"
    | _ => .error "list index out of range"

/-- The VM state: operand stack (head = top), variable storage,
program counter, the remaining whitespace-split integer tokens, the
remaining raw characters, and the bytes written to standard output. -/
structure VMState where
  stack : List Int
  vars : List Int
  pc : Int
  inputTokens : List String
  inputChars : List Char
  output : String
deriving DecidableEq, Repr

/-- Python list indexing `code[pc]` inside the run loop: a negative
index counts from the end; an index beyond either end raises. -/
def fetchInstr (code : List (Nat × Nat)) (pc : Int) : Except String (Nat × Nat) :=
  if 0 ≤ pc then
    match code.get? pc.toNat with
    | some i => .ok i
    | none => .error "list index out of range"
  else
    match code.get? (code.length - (-pc).toNat) with
    | some i =>
      if (-pc).toNat ≤ code.length then .ok i else .error "list index out of range"
    | none => .error "list index out of range"

/-- One dispatched instruction of `MandrillVM.run` (the handler body,
before the main loop increments the PC).  Returns `none` when the
halt sentinel was executed. -/
def execInstr (st : VMState) (opcode operand : Nat) :
    Except String (Option VMState) :=
  if opcode = NOP then .ok (some st)
  else if opcode = DSTORE then
    .ok (some { st with stack := (operand : Int) :: st.stack })
  else if opcode = DLOAD then
    match st.vars.get? operand with
    | some v => .ok (some { st with stack := v :: st.stack })
    | none => .error "list index out of range"
  else if opcode = DWRITE then
    match st.stack with
    | v :: rest =>
      if operand < st.vars.length then
        .ok (some { st with stack := rest,
                            vars := st.vars.set operand (to32bit v) })
      else .error "list index out of range"
    | [] => .error "list index out of range"
  else if opcode = EVAL then
    match executeEvalOptimized operand st.stack st.pc with
    | .ok (stack, pc) => .ok (some { st with stack := stack, pc := pc })
    | .error e => .error e
  else if opcode = JUMP then
    if operand = HALT_SENTINEL then .ok none
    else .ok (some { st with pc := ((operand / 8 : Nat) : Int) - 1 })
  else if opcode = GETI then
    let (v, rest) := getNextInt st.inputTokens
    .ok (some { st with stack := v :: st.stack, inputTokens := rest })
  else if opcode = GETC then
    let (v, rest) := getNextChar st.inputChars
    .ok (some { st with stack := v :: st.stack, inputChars := rest })
  else if opcode = PUTI then
    match st.stack with
    | v :: rest =>
      .ok (some { st with stack := rest,
                          output := st.output ++ toString (to32bit v) })
    | [] => .error "list index out of range"
  else if opcode = PUTC then
    match st.stack with
    | v :: rest =>
      let v32 := to32bit v
      if 0 ≤ v32 ∧ v32 ≤ 127 then
        .ok (some { st with stack := rest,
                            output := st.output.push (Char.ofNat v32.toNat) })
      else .ok (some { st with stack := rest })
    | [] => .error "list index out of range"
  else .error "Unknown opcode"

/-- Result of running the VM main loop. -/
inductive VMResult where
  | halted (st : VMState)
  | err (msg : String)
  | fuelOut
deriving DecidableEq, Repr

/-- `MandrillVM.run`: the fetch-dispatch-execute loop.  The loop
continues while `pc < len(code)`; when the PC moves out of bounds the
loop simply exits (normal termination), and only the `JUMP` halt
sentinel breaks out explicitly. -/
def runLoop (code : List (Nat × Nat)) : Nat → VMState → VMResult
  | 0, _ => .fuelOut
  | fuel + 1, st =>
    if st.pc < (code.length : Int) then
      match fetchInstr code st.pc with
      | .error e => .err e
      | .ok (opcode, operand) =>
        match execInstr st opcode operand with
        | .error e => .err e
        | .ok none => .halted st
        | .ok (some st') => runLoop code fuel { st' with pc := st'.pc + 1 }
    else .halted st

/-- Python `str.split()`: split on whitespace runs, dropping empties. -/
def splitWsAux (cur : List Char) (acc : List String) : List Char → List String
  | [] => if cur.isEmpty then acc.reverse else acc.reverse ++ [String.mk cur.reverse]
  | c :: rest =>
    if c.isWhitespace then
      if cur.isEmpty then splitWsAux [] acc rest
      else splitWsAux [] (String.mk cur.reverse :: acc) rest
    else splitWsAux (c :: cur) acc rest

def splitWs (s : String) : List String := splitWsAux [] [] s.toList

/-- Initial VM state after `load_bytecode` sized the variable area and
`_preload_input` captured the input (`variables` zero-filled,
empty stack, PC 0). -/
def initState (varCount : Nat) (input : String) : VMState :=
  { stack := [], vars := List.replicate varCount 0, pc := 0,
    inputTokens := splitWs input, inputChars := input.toList, output := "" }

/-- Run a code array against an input string with the given fuel. -/
def runVM (code : List (Nat × Nat)) (varCount : Nat) (input : String)
    (fuel : Nat) : VMResult :=
  runLoop code fuel (initState varCount input)

/-! ## Tree-walking interpreter (interpreter.py) -/

/-- Expression nodes of the interpreter's AST.  `keyword` covers the
`read`, `get`, `write`, `put` special names in expression position. -/
inductive IExpr where
  | binop (left : IExpr) (op : String) (right : IExpr)
  | lit (value : Int)
  | ident (name : String)
  | keyword (name : String)
deriving DecidableEq, Repr

/-- Assignment targets: an ordinary identifier or one of the special
keywords (`write`, `put`). -/
inductive ITarget where
  | id (name : String)
  | kw (name : String)
deriving DecidableEq, Repr

/-- Statement nodes; blocks are statement lists. -/
inductive IStmt where
  | assign (target : ITarget) (value : IExpr)
  | ifS (cond : IExpr) (thenB : List IStmt) (elseB : Option (List IStmt))
  | whileS (cond : IExpr) (body : List IStmt)

/-- Interpreter state: the variable dictionary (newest binding first),
the remaining input characters, and the accumulated output. -/
structure IState where
  vars : List (String × Int)
  inp : List Char
  output : String
deriving DecidableEq, Repr

/-- Python `dict.get(name, 0)`: the value of the newest binding of
`name`, or 0 when absent. -/
def dictGet (m : List (String × Int)) (k : String) : Int :=
  match m.find? (fun p => p.1 == k) with
  | some p => p.2
  | none => 0

/-- Python `dict[name] = value`, observed through `dictGet`. -/
def dictSet (m : List (String × Int)) (k : String) (v : Int) :
    List (String × Int) :=
  (k, v) :: m

/-- `Interpreter.read_integer`: skip whitespace, read an optional
minus sign and a digit run; when no digits follow, restore the
position after the whitespace and yield 0. -/
def readInteger (inp : List Char) : Int × List Char :=
  let afterWs := inp.dropWhile Char.isWhitespace
  match afterWs with
  | [] => (0, [])
  | c :: r =>
    let (neg, rest1) := if c = '-' then (true, r) else (false, afterWs)
    let digits := rest1.takeWhile Char.isDigit
    if digits.isEmpty then (0, afterWs)
    else
      let value : Int :=
        (digits.foldl (fun acc d => acc * 10 + (d.toNat - 48)) 0 : Nat)
      (if neg then -value else value, rest1.dropWhile Char.isDigit)

/-- `Interpreter.read_character`: next code point or 0 at end. -/
def readCharacter (inp : List Char) : Int × List Char :=
  match inp with
  | [] => (0, [])
  | c :: rest => ((c.toNat : Int), rest)

/-- `Interpreter.visit` on expression nodes (`visit_BinaryOp`,
`visit_Literal`, `visit_Identifier`, `visit_Keyword`).  Division and
modulus by zero yield 0 rather than failing. -/
def visitExpr : IExpr → IState → Except String (Int × IState)
  | .binop l op r, st => do
    let (lv, st1) ← visitExpr l st
    let (rv, st2) ← visitExpr r st1
    if op = "+" then .ok (lv + rv, st2)
    else if op = "-" then .ok (lv - rv, st2)
    else if op = "*" then .ok (lv * rv, st2)
    else if op = "/" then .ok (if rv ≠ 0 then lv.fdiv rv else 0, st2)
    else if op = "%" then .ok (if rv ≠ 0 then lv.fmod rv else 0, st2)
    else if op = ">" then .ok (if lv > rv then 1 else 0, st2)
    else if op = "<" then .ok (if lv < rv then 1 else 0, st2)
    else if op = ">=" then .ok (if lv ≥ rv then 1 else 0, st2)
    else if op = "<=" then .ok (if lv ≤ rv then 1 else 0, st2)
    else if op = "==" then .ok (if lv = rv then 1 else 0, st2)
    else if op = "!=" then .ok (if lv ≠ rv then 1 else 0, st2)
    else .error "Unknown binary operator"
  | .lit v, st => .ok (v, st)
  | .ident n, st => .ok (dictGet st.vars n, st)
  | .keyword n, st =>
    if n = "read" then
      let (v, rest) := readInteger st.inp
      .ok (v, { st with inp := rest })
    else if n = "get" then
      let (v, rest) := readCharacter st.inp
      .ok (v, { st with inp := rest })
    else if n = "write" ∨ n = "put" then .ok (0, st)
    else .error "Unknown keyword"

/-- `Interpreter.visit_Assignment` once the right-hand value is known:
bind a variable, or print for the `write`/`put` sinks. -/
def assignTarget (target : ITarget) (v : Int) (st : IState) : IState :=
  match target with
  | .id n => { st with vars := dictSet st.vars n v }
  | .kw n =>
    if n = "write" then { st with output := st.output ++ toString v }
    else if n = "put" then
      if 0 ≤ v ∧ v ≤ 127 then
        { st with output := st.output.push (Char.ofNat v.toNat) }
      else st
    else st

mutual

/-- Statement execution (`visit_Assignment`, `visit_IfStatement`,
`visit_WhileStatement`, `visit_Block`), with fuel for `while`. -/
def visitStmt : Nat → IStmt → IState → Except String IState
  | 0, _, _ => .error "out of fuel"
  | fuel + 1, stmt, st =>
    match stmt with
    | .assign target e => do
      let (v, st1) ← visitExpr e st
      .ok (assignTarget target v st1)
    | .ifS cond thenB elseB => do
      let (c, st1) ← visitExpr cond st
      if c ≠ 0 then visitStmts fuel thenB st1
      else
        match elseB with
        | some b => visitStmts fuel b st1
        | none => .ok st1
    | .whileS cond body => do
      let (c, st1) ← visitExpr cond st
      if c = 0 then .ok st1
      else do
        let st2 ← visitStmts fuel body st1
        visitStmt fuel (.whileS cond body) st2

/-- Execution of a statement list (`visit_Program` / `visit_Block`). -/
def visitStmts : Nat → List IStmt → IState → Except String IState
  | 0, _, _ => .error "out of fuel"
  | _ + 1, [], st => .ok st
  | fuel + 1, s :: rest, st => do
    let st1 ← visitStmt fuel s st
    visitStmts fuel rest st1

end

/-- Run a whole interpreter program on an input string. -/
def interpretAST (stmts : List IStmt) (input : String) (fuel : Nat) :
    Except String IState :=
  visitStmts fuel stmts { vars := [], inp := input.toList, output := "" }

/-! ## Lexer (lexer.py) -/

/-- Token kinds. -/
inductive TType where
  | keyword
  | id
  | literal
  | op
deriving DecidableEq, Repr

/-- A lexical token: a kind and a string payload. -/
structure Token where
  type : TType
  value : String
deriving DecidableEq, Repr

/-- The reserved words of the language. -/
def KEYWORDS : List String := ["if", "else", "while", "read", "put", "write", "get"]

/-- The single-character operators (including the two braces). -/
def SINGLE_CHAR_OPS : List Char :=
  ['+', '-', '*', '/', '%', '>', '<', '=', ';', '(', ')', lbrace, rbrace]

/-- Python `f-string` hex formatting used by the lexer: the lowercase
hexadecimal digits of `v` prefixed with `0x`. -/
def hexString (v : Nat) : String :=
  "0x" ++ String.mk (Nat.toDigits 16 v)

/-- A character of a lexer identifier: lowercase ASCII letter. -/
def isLowerAlpha (c : Char) : Bool := c.isAlpha && c.isLower

/-- `Lexer.character`, applied to the characters after the opening
single quote: an escape (backslash then `n`, backslash or quote) or a
plain character, then the closing quote.  A missing closing quote or
an unknown escape is a lexical error; reaching end of input where the
source calls `ord` on `None` is a type error. -/
def lexCharLit (cs : List Char) : Except String (Token × List Char) :=
  let finish : Nat → List Char → Except String (Token × List Char) :=
    fun charValue rest =>
      match rest with
      | q :: rest2 =>
        if q = squote then .ok (⟨.literal, hexString charValue⟩, rest2)
        else .error "Unterminated character literal"
      | [] => .error "Unterminated character literal"
  match cs with
  | [] => .error "TypeError: ord of NoneType"
  | c :: rest =>
    if c = bslashChar then
      match rest with
      | [] => .error "Unsupported escape sequence"
      | e :: rest2 =>
        if e = 'n' then finish 10 rest2
        else if e = bslashChar then finish 92 rest2
        else if e = squote then finish 39 rest2
        else .error "Unsupported escape sequence"
    else finish c.toNat rest

/-- `Lexer.get_next_token`: skip whitespace, then recognize an
identifier or keyword, a number, a character literal, a two-character
operator, or a single-character operator; anything else is a lexical
error.  Returns `none` at end of input. -/
def getNextToken : List Char → Except String (Option (Token × List Char))
  | [] => .ok none
  | c :: rest =>
    if c.isWhitespace then getNextToken rest
    else if isLowerAlpha c then
      let word := (c :: rest).takeWhile isLowerAlpha
      let remaining := (c :: rest).dropWhile isLowerAlpha
      let s := String.mk word
      if s ∈ KEYWORDS then .ok (some (⟨.keyword, s⟩, remaining))
      else .ok (some (⟨.id, s⟩, remaining))
    else if c.isDigit then
      let digits := (c :: rest).takeWhile Char.isDigit
      let remaining := (c :: rest).dropWhile Char.isDigit
      let value := digits.foldl (fun acc d => acc * 10 + (d.toNat - 48)) 0
      .ok (some (⟨.literal, hexString value⟩, remaining))
    else if c = squote then
      match lexCharLit rest with
      | .ok (t, remaining) => .ok (some (t, remaining))
      | .error e => .error e
    else if (c = '>' ∨ c = '<' ∨ c = '=' ∨ c = '!') ∧ rest.head? = some '=' then
      .ok (some (⟨.op, String.mk [c, '=']⟩, rest.tail))
    else if c ∈ SINGLE_CHAR_OPS then
      .ok (some (⟨.op, String.mk [c]⟩, rest))
    else .error "Lexical error: Invalid character"

/-- `Lexer.tokenize`: the whole token sequence of the source. -/
def lexAll : Nat → List Char → Except String (List Token)
  | 0, _ => .error "lexer out of fuel"
  | fuel + 1, cs =>
    match getNextToken cs with
    | .error e => .error e
    | .ok none => .ok []
    | .ok (some (t, rest)) =>
      match lexAll fuel rest with
      | .ok ts => .ok (t :: ts)
      | .error e => .error e

def tokenizeSrc (s : String) : Except String (List Token) :=
  lexAll (s.length + 1) s.toList

/-! ## Compiler front end (compiler.py): AST and recursive-descent parser -/

/-- Expression nodes of the compiler's AST.  Literals keep the hex
string payload of the token; `special` is a `SpecialVar` node. -/
inductive CExpr where
  | binop (left : CExpr) (op : String) (right : CExpr)
  | ident (name : String)
  | lit (value : String)
  | special (name : String)
deriving DecidableEq, Repr

/-- Assignment left values. -/
inductive CLvalue where
  | id (name : String)
  | special (name : String)
deriving DecidableEq, Repr

/-- Statement nodes of the compiler's AST. -/
inductive CStmt where
  | assign (lvalue : CLvalue) (e : CExpr)
  | ifS (cond : CExpr) (thenS : List CStmt) (elseS : Option (List CStmt))
  | whileS (cond : CExpr) (body : List CStmt)

/-- `ASTParser.eat`: consume the current token when its type (and,
when given, its value) matches; otherwise a syntax error.  Consuming
at end of input is also a syntax error. -/
def eatTok (ts : List Token) (tt : TType) (tv : Option String) :
    Except String (Token × List Token) :=
  match ts with
  | [] => .error "Syntax error at EOF"
  | t :: rest =>
    if t.type = tt then
      match tv with
      | none => .ok (t, rest)
      | some v => if t.value = v then .ok (t, rest) else .error "Syntax error"
    else .error "Syntax error"

mutual

/-- `ASTParser.primary` of compiler.py. -/
def parsePrimaryC : Nat → List Token → Except String (CExpr × List Token)
  | 0, _ => .error "out of fuel"
  | fuel + 1, ts =>
    match ts with
    | [] => .error "Invalid primary expression at EOF"
    | t :: rest =>
      if t.type = .literal then .ok (.lit t.value, rest)
      else if t.type = .id then .ok (.ident t.value, rest)
      else if t.type = .keyword ∧
          (t.value = "read" ∨ t.value = "write" ∨ t.value = "put" ∨ t.value = "get") then
        .ok (.special t.value, rest)
      else if t.type = .op ∧ t.value = "(" then do
        let (e, ts1) ← parseExpressionC fuel rest
        let (_, ts2) ← eatTok ts1 .op (some ")")
        .ok (e, ts2)
      else .error "Invalid primary expression"

/-- The `factor` loop over multiplicative operators. -/
def parseFactorLoopC : Nat → CExpr → List Token → Except String (CExpr × List Token)
  | 0, _, _ => .error "out of fuel"
  | fuel + 1, left, ts =>
    match ts with
    | t :: _ =>
      if t.type = .op ∧ (t.value = "*" ∨ t.value = "/" ∨ t.value = "%") then do
        let (_, ts1) ← eatTok ts .op (some t.value)
        let (right, ts2) ← parsePrimaryC fuel ts1
        parseFactorLoopC fuel (.binop left t.value right) ts2
      else .ok (left, ts)
    | [] => .ok (left, ts)

def parseFactorC : Nat → List Token → Except String (CExpr × List Token)
  | 0, _ => .error "out of fuel"
  | fuel + 1, ts => do
    let (left, ts1) ← parsePrimaryC fuel ts
    parseFactorLoopC fuel left ts1

/-- The `term` loop over additive operators. -/
def parseTermLoopC : Nat → CExpr → List Token → Except String (CExpr × List Token)
  | 0, _, _ => .error "out of fuel"
  | fuel + 1, left, ts =>
    match ts with
    | t :: _ =>
      if t.type = .op ∧ (t.value = "+" ∨ t.value = "-") then do
        let (_, ts1) ← eatTok ts .op (some t.value)
        let (right, ts2) ← parseFactorC fuel ts1
        parseTermLoopC fuel (.binop left t.value right) ts2
      else .ok (left, ts)
    | [] => .ok (left, ts)

def parseTermC : Nat → List Token → Except String (CExpr × List Token)
  | 0, _ => .error "out of fuel"
  | fuel + 1, ts => do
    let (left, ts1) ← parseFactorC fuel ts
    parseTermLoopC fuel left ts1

/-- The `comparison` loop over relational operators. -/
def parseCompLoopC : Nat → CExpr → List Token → Except String (CExpr × List Token)
  | 0, _, _ => .error "out of fuel"
  | fuel + 1, left, ts =>
    match ts with
    | t :: _ =>
      if t.type = .op ∧
          (t.value = ">" ∨ t.value = "<" ∨ t.value = ">=" ∨ t.value = "<=") then do
        let (_, ts1) ← eatTok ts .op (some t.value)
        let (right, ts2) ← parseTermC fuel ts1
        parseCompLoopC fuel (.binop left t.value right) ts2
      else .ok (left, ts)
    | [] => .ok (left, ts)

def parseComparisonC : Nat → List Token → Except String (CExpr × List Token)
  | 0, _ => .error "out of fuel"
  | fuel + 1, ts => do
    let (left, ts1) ← parseTermC fuel ts
    parseCompLoopC fuel left ts1

/-- The `equality` loop. -/
def parseEqLoopC : Nat → CExpr → List Token → Except String (CExpr × List Token)
  | 0, _, _ => .error "out of fuel"
  | fuel + 1, left, ts =>
    match ts with
    | t :: _ =>
      if t.type = .op ∧ (t.value = "==" ∨ t.value = "!=") then do
        let (_, ts1) ← eatTok ts .op (some t.value)
        let (right, ts2) ← parseComparisonC fuel ts1
        parseEqLoopC fuel (.binop left t.value right) ts2
      else .ok (left, ts)
    | [] => .ok (left, ts)

def parseEqualityC : Nat → List Token → Except String (CExpr × List Token)
  | 0, _ => .error "out of fuel"
  | fuel + 1, ts => do
    let (left, ts1) ← parseComparisonC fuel ts
    parseEqLoopC fuel left ts1

def parseExpressionC : Nat → List Token → Except String (CExpr × List Token)
  | 0, _ => .error "out of fuel"
  | fuel + 1, ts => parseEqualityC fuel ts

end

mutual

/-- `ASTParser.statement` of compiler.py. -/
def parseStatementC : Nat → List Token → Except String (CStmt × List Token)
  | 0, _ => .error "out of fuel"
  | fuel + 1, ts =>
    match ts with
    | [] => .error "Unexpected end of input"
    | t :: _ =>
      if t.type = .keyword then
        if t.value = "if" then parseIfC fuel ts
        else if t.value = "while" then parseWhileC fuel ts
        else if t.value = "write" ∨ t.value = "put" then parseAssignC fuel ts
        else .error "Unexpected keyword"
      else if t.type = .id then parseAssignC fuel ts
      else .error "Unexpected token"

/-- `ASTParser.assignment_statement` of compiler.py. -/
def parseAssignC : Nat → List Token → Except String (CStmt × List Token)
  | 0, _ => .error "out of fuel"
  | fuel + 1, ts => do
    let (lv, ts1) ←
      match ts with
      | [] => .error "Expected identifier or output variable"
      | t :: rest =>
        if t.type = .id then .ok (CLvalue.id t.value, rest)
        else if t.type = .keyword ∧ (t.value = "write" ∨ t.value = "put") then
          .ok (CLvalue.special t.value, rest)
        else .error "Expected identifier or output variable"
    let (_, ts2) ← eatTok ts1 .op (some "=")
    let (e, ts3) ← parseExpressionC fuel ts2
    let (_, ts4) ← eatTok ts3 .op (some ";")
    .ok (.assign lv e, ts4)

/-- `ASTParser.if_statement` of compiler.py. -/
def parseIfC : Nat → List Token → Except String (CStmt × List Token)
  | 0, _ => .error "out of fuel"
  | fuel + 1, ts => do
    let (_, ts1) ← eatTok ts .keyword (some "if")
    let (_, ts2) ← eatTok ts1 .op (some "(")
    let (cond, ts3) ← parseExpressionC fuel ts2
    let (_, ts4) ← eatTok ts3 .op (some ")")
    let (_, ts5) ← eatTok ts4 .op (some (String.mk [lbrace]))
    let (thenS, ts6) ← parseStatementListC fuel ts5
    let (_, ts7) ← eatTok ts6 .op (some (String.mk [rbrace]))
    match ts7 with
    | t :: _ =>
      if t.type = .keyword ∧ t.value = "else" then do
        let (_, ts8) ← eatTok ts7 .keyword (some "else")
        let (_, ts9) ← eatTok ts8 .op (some (String.mk [lbrace]))
        let (elseS, ts10) ← parseStatementListC fuel ts9
        let (_, ts11) ← eatTok ts10 .op (some (String.mk [rbrace]))
        .ok (.ifS cond thenS (some elseS), ts11)
      else .ok (.ifS cond thenS none, ts7)
    | [] => .ok (.ifS cond thenS none, ts7)

/-- `ASTParser.while_statement` of compiler.py. -/
def parseWhileC : Nat → List Token → Except String (CStmt × List Token)
  | 0, _ => .error "out of fuel"
  | fuel + 1, ts => do
    let (_, ts1) ← eatTok ts .keyword (some "while")
    let (_, ts2) ← eatTok ts1 .op (some "(")
    let (cond, ts3) ← parseExpressionC fuel ts2
    let (_, ts4) ← eatTok ts3 .op (some ")")
    let (_, ts5) ← eatTok ts4 .op (some (String.mk [lbrace]))
    let (body, ts6) ← parseStatementListC fuel ts5
    let (_, ts7) ← eatTok ts6 .op (some (String.mk [rbrace]))
    .ok (.whileS cond body, ts7)

/-- The `statement_list` loop of compiler.py: keep parsing while the
current token is neither absent, nor an operator, nor a brace. -/
def parseStmtLoopC : Nat → List Token → Except String (List CStmt × List Token)
  | 0, _ => .error "out of fuel"
  | fuel + 1, ts =>
    match ts with
    | [] => .ok ([], [])
    | t :: _ =>
      if t.type ≠ .op ∧ t.value ≠ String.mk [rbrace] then do
        let (s, ts1) ← parseStatementC fuel ts
        let (rest, ts2) ← parseStmtLoopC fuel ts1
        .ok (s :: rest, ts2)
      else .ok ([], ts)

/-- `ASTParser.statement_list` of compiler.py: empty input yields the
empty list; otherwise at least one statement unless the current token
is a closing brace, then the loop. -/
def parseStatementListC : Nat → List Token → Except String (List CStmt × List Token)
  | 0, _ => .error "out of fuel"
  | fuel + 1, ts =>
    match ts with
    | [] => .ok ([], [])
    | t :: _ =>
      if t.type ≠ .op ∨ t.value ≠ String.mk [rbrace] then do
        let (s, ts1) ← parseStatementC fuel ts
        let (rest, ts2) ← parseStmtLoopC fuel ts1
        .ok (s :: rest, ts2)
      else .ok ([], ts)

end

/-- `ASTParser.parse` of compiler.py: the whole program, requiring all
tokens consumed. -/
def parseProgramC (fuel : Nat) (ts : List Token) : Except String (List CStmt) := do
  let (stmts, rest) ← parseStatementListC fuel ts
  match rest with
  | [] => .ok stmts
  | _ => .error "Unexpected token at end of input"

/-- Fuel that always suffices for the recursive-descent parsers. -/
def parserFuel (ts : List Token) : Nat := 16 * ts.length + 64

/-! ## Code generator (compiler.py, CodeGenerator) -/

/-- Code generator state: emitted instruction list, variable symbol
table and next free variable index. -/
structure Gen where
  instrs : List (Nat × Nat)
  varTable : List (String × Nat)
  varCount : Nat
deriving DecidableEq, Repr

/-- The empty generator state. -/
def gen0 : Gen := { instrs := [], varTable := [], varCount := 0 }

/-- `CodeGenerator.get_var_id`: look up the identifier or allocate the
next dense index. -/
def getVarId (name : String) (g : Gen) : Nat × Gen :=
  match g.varTable.find? (fun p => p.1 == name) with
  | some p => (p.2, g)
  | none =>
    (g.varCount, { g with varTable := (name, g.varCount) :: g.varTable,
                          varCount := g.varCount + 1 })

/-- `CodeGenerator.emit`. -/
def emitI (g : Gen) (opcode operand : Nat) : Gen :=
  { g with instrs := g.instrs ++ [(opcode, operand)] }

/-- `CodeGenerator.patch_jump`: keep the opcode, replace the operand. -/
def patchJump (g : Gen) (idx target : Nat) : Gen :=
  { g with instrs := g.instrs.set idx ((g.instrs.getD idx (0, 0)).1, target) }

/-- Python `int(payload, 16)` on a literal payload: an optional `0x`
prefix then a nonempty run of hex digits, else a `ValueError`. -/
def hexDigitVal? (c : Char) : Option Nat :=
  if c.isDigit then some (c.toNat - 48)
  else if 'a' ≤ c ∧ c ≤ 'f' then some (c.toNat - 87)
  else if 'A' ≤ c ∧ c ≤ 'F' then some (c.toNat - 55)
  else none

def hexVal? (s : String) : Option Nat :=
  let cs :=
    match s.toList with
    | '0' :: 'x' :: rest => rest
    | cs => cs
  match cs with
  | [] => none
  | _ =>
    cs.foldl (fun acc c =>
      match acc, hexDigitVal? c with
      | some a, some d => some (a * 16 + d)
      | _, _ => none) (some 0)

/-- The operator table of `CodeGenerator.visit_BinaryOp`. -/
def opMap (op : String) : Option Nat :=
  if op = "+" then some OP_ADD
  else if op = "-" then some OP_SUB
  else if op = "*" then some OP_MUL
  else if op = "/" then some OP_DIV
  else if op = "%" then some OP_MOD
  else if op = ">" then some OP_GT
  else if op = "<" then some OP_LT
  else if op = ">=" then some OP_GE
  else if op = "<=" then some OP_LE
  else if op = "==" then some OP_EQ
  else if op = "!=" then some OP_NE
  else none

/-- Expression code generation (`visit_BinaryOp`, `visit_Identifier`,
`visit_Literal`, `visit_SpecialVar`).  A `write`/`put` special
variable in expression position raises; a special variable with any
other unknown name silently emits nothing. -/
def genExpr : CExpr → Gen → Except String Gen
  | .binop l op r, g => do
    let g1 ← genExpr l g
    let g2 ← genExpr r g1
    match opMap op with
    | some subOp => .ok (emitI g2 EVAL subOp)
    | none => .error "Unknown operator"
  | .ident name, g =>
    let (vid, g1) := getVarId name g
    .ok (emitI g1 DLOAD vid)
  | .lit value, g =>
    match hexVal? value with
    | some v => .ok (emitI g DSTORE v)
    | none => .error "ValueError: invalid literal"
  | .special name, g =>
    if name = "read" then .ok (emitI g GETI 0)
    else if name = "get" then .ok (emitI g GETC 0)
    else if name = "write" ∨ name = "put" then
      .error "Unexpected special variable in expression"
    else .ok g

mutual

/-- Statement code generation (`visit_AssignmentStatement`,
`visit_IfStatement`, `visit_WhileStatement`), with the exact
placeholder-emission and back-patching order of the source. -/
def genStmt : CStmt → Gen → Except String Gen
  | .assign lv e, g => do
    let g1 ← genExpr e g
    match lv with
    | .id name =>
      let (vid, g2) := getVarId name g1
      .ok (emitI g2 DWRITE vid)
    | .special name =>
      if name = "write" then .ok (emitI g1 PUTI 0)
      else if name = "put" then .ok (emitI g1 PUTC 0)
      else .ok g1
  | .ifS cond thenS elseS, g => do
    let g1 ← genExpr cond g
    match elseS with
    | some elseB => do
      let thenAddrPos := g1.instrs.length
      let g2 := emitI g1 DSTORE 0
      let elseAddrPos := g2.instrs.length
      let g3 := emitI g2 DSTORE 0
      let g4 := emitI g3 EVAL OP_COND_JUMP
      let thenStart := g4.instrs.length
      let g5 ← genStmts thenS g4
      let jumpToEnd := g5.instrs.length
      let g6 := emitI g5 JUMP 0
      let elseStart := g6.instrs.length
      let g7 ← genStmts elseB g6
      let endAddr := g7.instrs.length * 8
      let g8 := patchJump g7 jumpToEnd endAddr
      let g9 := patchJump g8 thenAddrPos (thenStart * 8)
      .ok (patchJump g9 elseAddrPos (elseStart * 8))
    | none => do
      let thenAddrPos := g1.instrs.length
      let g2 := emitI g1 DSTORE 0
      let elseAddrPos := g2.instrs.length
      let g3 := emitI g2 DSTORE 0
      let g4 := emitI g3 EVAL OP_COND_JUMP
      let thenStart := g4.instrs.length
      let g5 ← genStmts thenS g4
      let endAddr := g5.instrs.length * 8
      let g6 := patchJump g5 thenAddrPos (thenStart * 8)
      .ok (patchJump g6 elseAddrPos endAddr)
  | .whileS cond body, g => do
    let loopStart := g.instrs.length
    let g1 ← genExpr cond g
    let thenAddrPos := g1.instrs.length
    let g2 := emitI g1 DSTORE 0
    let elseAddrPos := g2.instrs.length
    let g3 := emitI g2 DSTORE 0
    let g4 := emitI g3 EVAL OP_COND_JUMP
    let bodyStart := g4.instrs.length
    let g5 ← genStmts body g4
    let g6 := emitI g5 JUMP (loopStart * 8)
    let endAddr := g6.instrs.length * 8
    let g7 := patchJump g6 thenAddrPos (bodyStart * 8)
    .ok (patchJump g7 elseAddrPos endAddr)

def genStmts : List CStmt → Gen → Except String Gen
  | [], g => .ok g
  | s :: rest, g => do
    let g1 ← genStmt s g
    genStmts rest g1

end

/-- `CodeGenerator.generate`: visit the program, then append the halt
instruction. -/
def generate (stmts : List CStmt) : Except String Gen := do
  let g ← genStmts stmts gen0
  .ok (emitI g JUMP HALT_SENTINEL)

/-! ## Bytecode writer and loader (compiler.py BytecodeWriter, vm.py load_bytecode) -/

/-- The 16 magic bytes, ASCII `MANDRILLBYTECODE`. -/
def MAGIC : List Nat := [77, 65, 78, 68, 82, 73, 76, 76, 66, 89, 84, 69, 67, 79, 68, 69]

/-- Python `struct.pack` of a `>I` field: four big-endian bytes, or a
`struct.error` when the value does not fit an unsigned 32-bit field. -/
def packU32 (n : Nat) : Except String (List Nat) :=
  if n < 4294967296 then
    .ok [n / 16777216, n / 65536 % 256, n / 256 % 256, n % 256]
  else .error "struct.error: argument out of range"

/-- Serialization of the instruction array, 8 bytes per instruction. -/
def writeInstrs : List (Nat × Nat) → Except String (List Nat)
  | [] => .ok []
  | (opcode, operand) :: rest => do
    let a ← packU32 opcode
    let b ← packU32 operand
    let c ← writeInstrs rest
    .ok (a ++ b ++ c)

/-- `BytecodeWriter.write_bytecode`: 32-byte header (magic, version 1,
data size, code size, 4 zero padding bytes) followed by the code. -/
def writeBytecode (instructions : List (Nat × Nat)) (varCount : Nat) :
    Except String (List Nat) := do
  let dataSize := varCount * 4
  let codeSize := instructions.length * 8
  let version ← packU32 1
  let ds ← packU32 dataSize
  let cs ← packU32 codeSize
  let code ← writeInstrs instructions
  .ok (MAGIC ++ version ++ ds ++ cs ++ [0, 0, 0, 0] ++ code)

/-- Python `struct.unpack(">I", ...)` on the next four bytes; fewer
than four bytes is a `struct.error`. -/
def readU32 (bs : List Nat) : Except String (Nat × List Nat) :=
  match bs with
  | b0 :: b1 :: b2 :: b3 :: rest =>
    .ok (b0 * 16777216 + b1 * 65536 + b2 * 256 + b3, rest)
  | _ => .error "struct.error: unpack requires 4 bytes"

/-- Decoding of `count` instructions from the code bytes. -/
def decodeInstrs : Nat → List Nat → Except String (List (Nat × Nat))
  | 0, _ => .ok []
  | count + 1, bs => do
    let (opcode, bs1) ← readU32 bs
    let (operand, bs2) ← readU32 bs1
    let rest ← decodeInstrs count bs2
    .ok ((opcode, operand) :: rest)

/-- `MandrillVM.load_bytecode`: check magic and version, read sizes,
skip padding, decode `code_size / 8` instructions; the variable count
is `data_size / 4`. -/
def loadBytecode (bs : List Nat) : Except String (List (Nat × Nat) × Nat) :=
  if bs.take 16 ≠ MAGIC then .error "Invalid bytecode file: wrong magic number"
  else do
    let (version, bs2) ← readU32 (bs.drop 16)
    if version ≠ 1 then .error "Unsupported bytecode version"
    else do
      let (dataSize, bs3) ← readU32 bs2
      let (codeSize, bs4) ← readU32 bs3
      let codeBytes := (bs4.drop 4).take codeSize
      let instrs ← decodeInstrs (codeSize / 8) codeBytes
      .ok (instrs, dataSize / 4)

/-! ## Interpreter front end (interpreter.py, ASTParser) -/

/-- `ASTParser.primary` of interpreter.py converts the literal payload
at parse time: hex when it starts with `0x`, else decimal. -/
def parseLitValueI (s : String) : Option Int :=
  match s.toList with
  | '0' :: 'x' :: _ => (hexVal? s).map (fun n => (n : Int))
  | _ => (digitsVal? s.toList).map (fun n => (n : Int))

mutual

def parsePrimaryI : Nat → List Token → Except String (IExpr × List Token)
  | 0, _ => .error "out of fuel"
  | fuel + 1, ts =>
    match ts with
    | [] => .error "Invalid primary expression at EOF"
    | t :: rest =>
      if t.type = .literal then
        match parseLitValueI t.value with
        | some v => .ok (.lit v, rest)
        | none => .error "ValueError: invalid literal"
      else if t.type = .id then .ok (.ident t.value, rest)
      else if t.type = .keyword ∧
          (t.value = "read" ∨ t.value = "write" ∨ t.value = "put" ∨ t.value = "get") then
        .ok (.keyword t.value, rest)
      else if t.type = .op ∧ t.value = "(" then do
        let (e, ts1) ← parseExpressionI fuel rest
        let (_, ts2) ← eatTok ts1 .op (some ")")
        .ok (e, ts2)
      else .error "Invalid primary expression"

def parseFactorLoopI : Nat → IExpr → List Token → Except String (IExpr × List Token)
  | 0, _, _ => .error "out of fuel"
  | fuel + 1, left, ts =>
    match ts with
    | t :: _ =>
      if t.type = .op ∧ (t.value = "*" ∨ t.value = "/" ∨ t.value = "%") then do
        let (_, ts1) ← eatTok ts .op (some t.value)
        let (right, ts2) ← parsePrimaryI fuel ts1
        parseFactorLoopI fuel (.binop left t.value right) ts2
      else .ok (left, ts)
    | [] => .ok (left, ts)

def parseFactorI : Nat → List Token → Except String (IExpr × List Token)
  | 0, _ => .error "out of fuel"
  | fuel + 1, ts => do
    let (left, ts1) ← parsePrimaryI fuel ts
    parseFactorLoopI fuel left ts1

def parseTermLoopI : Nat → IExpr → List Token → Except String (IExpr × List Token)
  | 0, _, _ => .error "out of fuel"
  | fuel + 1, left, ts =>
    match ts with
    | t :: _ =>
      if t.type = .op ∧ (t.value = "+" ∨ t.value = "-") then do
        let (_, ts1) ← eatTok ts .op (some t.value)
        let (right, ts2) ← parseFactorI fuel ts1
        parseTermLoopI fuel (.binop left t.value right) ts2
      else .ok (left, ts)
    | [] => .ok (left, ts)

def parseTermI : Nat → List Token → Except String (IExpr × List Token)
  | 0, _ => .error "out of fuel"
  | fuel + 1, ts => do
    let (left, ts1) ← parseFactorI fuel ts
    parseTermLoopI fuel left ts1

def parseCompLoopI : Nat → IExpr → List Token → Except String (IExpr × List Token)
  | 0, _, _ => .error "out of fuel"
  | fuel + 1, left, ts =>
    match ts with
    | t :: _ =>
      if t.type = .op ∧
          (t.value = ">" ∨ t.value = "<" ∨ t.value = ">=" ∨ t.value = "<=") then do
        let (_, ts1) ← eatTok ts .op (some t.value)
        let (right, ts2) ← parseTermI fuel ts1
        parseCompLoopI fuel (.binop left t.value right) ts2
      else .ok (left, ts)
    | [] => .ok (left, ts)

def parseComparisonI : Nat → List Token → Except String (IExpr × List Token)
  | 0, _ => .error "out of fuel"
  | fuel + 1, ts => do
    let (left, ts1) ← parseTermI fuel ts
    parseCompLoopI fuel left ts1

def parseEqLoopI : Nat → IExpr → List Token → Except String (IExpr × List Token)
  | 0, _, _ => .error "out of fuel"
  | fuel + 1, left, ts =>
    match ts with
    | t :: _ =>
      if t.type = .op ∧ (t.value = "==" ∨ t.value = "!=") then do
        let (_, ts1) ← eatTok ts .op (some t.value)
        let (right, ts2) ← parseComparisonI fuel ts1
        parseEqLoopI fuel (.binop left t.value right) ts2
      else .ok (left, ts)
    | [] => .ok (left, ts)

def parseEqualityI : Nat → List Token → Except String (IExpr × List Token)
  | 0, _ => .error "out of fuel"
  | fuel + 1, ts => do
    let (left, ts1) ← parseComparisonI fuel ts
    parseEqLoopI fuel left ts1

def parseExpressionI : Nat → List Token → Except String (IExpr × List Token)
  | 0, _ => .error "out of fuel"
  | fuel + 1, ts => parseEqualityI fuel ts

end

mutual

def parseStatementI : Nat → List Token → Except String (IStmt × List Token)
  | 0, _ => .error "out of fuel"
  | fuel + 1, ts =>
    match ts with
    | [] => .error "Unexpected end of input"
    | t :: _ =>
      if t.type = .keyword then
        if t.value = "if" then parseIfI fuel ts
        else if t.value = "while" then parseWhileI fuel ts
        else if t.value = "write" ∨ t.value = "put" then parseAssignI fuel ts
        else .error "Unexpected keyword"
      else if t.type = .id then parseAssignI fuel ts
      else .error "Unexpected token"

def parseAssignI : Nat → List Token → Except String (IStmt × List Token)
  | 0, _ => .error "out of fuel"
  | fuel + 1, ts => do
    let (target, ts1) ←
      match ts with
      | [] => .error "Expected identifier or output variable"
      | t :: rest =>
        if t.type = .id then .ok (ITarget.id t.value, rest)
        else if t.type = .keyword ∧ (t.value = "write" ∨ t.value = "put") then
          .ok (ITarget.kw t.value, rest)
        else .error "Expected identifier or output variable"
    let (_, ts2) ← eatTok ts1 .op (some "=")
    let (e, ts3) ← parseExpressionI fuel ts2
    let (_, ts4) ← eatTok ts3 .op (some ";")
    .ok (.assign target e, ts4)

def parseIfI : Nat → List Token → Except String (IStmt × List Token)
  | 0, _ => .error "out of fuel"
  | fuel + 1, ts => do
    let (_, ts1) ← eatTok ts .keyword (some "if")
    let (_, ts2) ← eatTok ts1 .op (some "(")
    let (cond, ts3) ← parseExpressionI fuel ts2
    let (_, ts4) ← eatTok ts3 .op (some ")")
    let (_, ts5) ← eatTok ts4 .op (some (String.mk [lbrace]))
    let (thenB, ts6) ← parseStmtListI fuel ts5
    let (_, ts7) ← eatTok ts6 .op (some (String.mk [rbrace]))
    match ts7 with
    | t :: _ =>
      if t.type = .keyword ∧ t.value = "else" then do
        let (_, ts8) ← eatTok ts7 .keyword (some "else")
        let (_, ts9) ← eatTok ts8 .op (some (String.mk [lbrace]))
        let (elseB, ts10) ← parseStmtListI fuel ts9
        let (_, ts11) ← eatTok ts10 .op (some (String.mk [rbrace]))
        .ok (.ifS cond thenB (some elseB), ts11)
      else .ok (.ifS cond thenB none, ts7)
    | [] => .ok (.ifS cond thenB none, ts7)

def parseWhileI : Nat → List Token → Except String (IStmt × List Token)
  | 0, _ => .error "out of fuel"
  | fuel + 1, ts => do
    let (_, ts1) ← eatTok ts .keyword (some "while")
    let (_, ts2) ← eatTok ts1 .op (some "(")
    let (cond, ts3) ← parseExpressionI fuel ts2
    let (_, ts4) ← eatTok ts3 .op (some ")")
    let (_, ts5) ← eatTok ts4 .op (some (String.mk [lbrace]))
    let (body, ts6) ← parseStmtListI fuel ts5
    let (_, ts7) ← eatTok ts6 .op (some (String.mk [rbrace]))
    .ok (.whileS cond body, ts7)

/-- `ASTParser.statement_list` of interpreter.py: parse statements
while the current token exists and is not a closing brace. -/
def parseStmtListI : Nat → List Token → Except String (List IStmt × List Token)
  | 0, _ => .error "out of fuel"
  | fuel + 1, ts =>
    match ts with
    | [] => .ok ([], [])
    | t :: _ =>
      if t.type = .op ∧ t.value = String.mk [rbrace] then .ok ([], ts)
      else do
        let (s, ts1) ← parseStatementI fuel ts
        let (rest, ts2) ← parseStmtListI fuel ts1
        .ok (s :: rest, ts2)

end

/-- `ASTParser.parse` of interpreter.py. -/
def parseProgramI (fuel : Nat) (ts : List Token) : Except String (List IStmt) := do
  let (stmts, rest) ← parseStmtListI fuel ts
  match rest with
  | [] => .ok stmts
  | _ => .error "Unexpected token at end of input"

/-! ## End-to-end pipelines and the test corpus -/

/-- Compile a source string to the loaded instruction array and
variable count, through the lexer, the compiler parser, code
generation, the bytecode writer, and the bytecode loader. -/
def compileSource (src : String) : Except String (List (Nat × Nat) × Nat) := do
  let ts ← tokenizeSrc src
  let prog ← parseProgramC (parserFuel ts) ts
  let g ← generate prog
  let bytes ← writeBytecode g.instrs g.varCount
  loadBytecode bytes

/-- Standard output of compiling and running a source program on an
input string with the VM; `none` when any stage fails. -/
def vmRunSource (src input : String) : Option String :=
  match compileSource src with
  | .error _ => none
  | .ok (code, varCount) =>
    match runLoop code 100000 (initState varCount input) with
    | .halted st => some st.output
    | _ => none

/-- Standard output of interpreting a source program on an input
string with the tree-walking interpreter; `none` when any stage
fails. -/
def interpRunSource (src input : String) : Option String :=
  match tokenizeSrc src with
  | .error _ => none
  | .ok ts =>
    match parseProgramI (parserFuel ts) ts with
    | .error _ => none
    | .ok stmts =>
      match interpretAST stmts input 10000 with
      | .ok st => some st.output
      | .error _ => none

/-- The end-to-end scenarios of the specification (source, input). -/
def corpus : List (String × String) :=
  [ ("a = read; b = read; write = a + b;", "3 4"),
    ("x = read; if (x > 0) \x7b write = 1; \x7d else \x7b write = 0; \x7d", "-5"),
    ("x = read; if (x > 0) \x7b write = 1; \x7d else \x7b write = 0; \x7d", "5"),
    ("i = 1; s = 0; while (i <= 10) \x7b s = s + i; i = i + 1; \x7d write = s;", ""),
    ("c = get; put = c; c = get; put = c;", "ab"),
    ("write = 0 - 7; write = (0 - 7) % 3;", ""),
    ("a = 1;", "") ]

/-! ## Auxiliary predicates used by the claims -/

/-- Whether a VM run ended with a fatal error. -/
def VMResult.isErr : VMResult → Bool
  | .err _ => true
  | _ => false

/-- Lex then parse with the compiler front end, then run code
generation on the parsed program; the outer layer is the front end,
the inner layer the generator. -/
def parseThenGenerate (src : String) : Except String (Except String Gen) := do
  let ts ← tokenizeSrc src
  let prog ← parseProgramC (parserFuel ts) ts
  .ok (generate prog)

/-- Every binary operator is in the generator's table and every
literal payload parses as hex (Python would not raise `ValueError`). -/
def goodExprC : CExpr → Bool
  | .binop l op r => (opMap op).isSome && goodExprC l && goodExprC r
  | .lit v => (hexVal? v).isSome
  | .ident _ => true
  | .special _ => true

/-- No `write`/`put` special variable in expression position. -/
def noWritePutExprC : CExpr → Bool
  | .binop l _ r => noWritePutExprC l && noWritePutExprC r
  | .special n => !(n == "write" || n == "put")
  | _ => true

mutual

def goodStmtC : CStmt → Bool
  | .assign _ e => goodExprC e
  | .ifS c t e =>
    goodExprC c && goodStmtsC t &&
      (match e with | some b => goodStmtsC b | none => true)
  | .whileS c b => goodExprC c && goodStmtsC b

def goodStmtsC : List CStmt → Bool
  | [] => true
  | s :: rest => goodStmtC s && goodStmtsC rest

end

mutual

def noWritePutStmtC : CStmt → Bool
  | .assign _ e => noWritePutExprC e
  | .ifS c t e =>
    noWritePutExprC c && noWritePutStmtsC t &&
      (match e with | some b => noWritePutStmtsC b | none => true)
  | .whileS c b => noWritePutExprC c && noWritePutStmtsC b

def noWritePutStmtsC : List CStmt → Bool
  | [] => true
  | s :: rest => noWritePutStmtC s && noWritePutStmtsC rest

end

/-- Every literal token of a token stream has a payload the generator
can parse (true of everything the lexer emits). -/
def goodToksB (ts : List Token) : Bool :=
  ts.all (fun t => !(t.type == TType.literal) || (hexVal? t.value).isSome)

/-- The two stack slots pushed for every `EVAL COND_JUMP` are fully
patched: the two immediately preceding instructions are `DSTORE`s
whose operands are nonzero byte addresses inside the code region. -/
def CondJumpPatched (code : List (Nat × Nat)) : Prop :=
  ∀ i, code.get? i = some (EVAL, OP_COND_JUMP) →
    2 ≤ i ∧ ∃ a b,
      code.get? (i - 2) = some (DSTORE, a) ∧
      code.get? (i - 1) = some (DSTORE, b) ∧
      0 < a ∧ a < 8 * code.length ∧ 0 < b ∧ b < 8 * code.length

/-- Intermediate invariant during generation: every `EVAL COND_JUMP`
at or after `base` has its two `DSTORE`s immediately before it, with
operands bounded by the current code size (patching of an enclosing
construct may still move them, but only to larger in-range values). -/
def CondJumpTrioLe (code : List (Nat × Nat)) (base : Nat) : Prop :=
  ∀ i, base ≤ i → code.get? i = some (EVAL, OP_COND_JUMP) →
    base + 2 ≤ i ∧ ∃ a b,
      code.get? (i - 2) = some (DSTORE, a) ∧
      code.get? (i - 1) = some (DSTORE, b) ∧
      0 < a ∧ a ≤ 8 * code.length ∧ 0 < b ∧ b ≤ 8 * code.length

/-- The generator state `g2` extends `g1`: the emitted instruction
list of `g1` is a prefix, entry for entry. -/
def ExtendsG (g1 g2 : Gen) : Prop := ∃ t, g2.instrs = g1.instrs ++ t

/-- No `EVAL COND_JUMP` instruction at or after `base`. -/
def NoCJFrom (code : List (Nat × Nat)) (base : Nat) : Prop :=
  ∀ i, base ≤ i → code.get? i ≠ some (EVAL, OP_COND_JUMP)

/-- The four big-endian bytes of a 32-bit value. -/
def u32be (n : Nat) : List Nat :=
  [n / 16777216, n / 65536 % 256, n / 256 % 256, n % 256]

/-- Whether an embedded computation succeeded. -/
def exceptIsOk {α : Type} : Except String α → Bool
  | .ok _ => true
  | .error _ => false

/-! ## Shared lemmas -/

/-- The conditional truncation of `_to_32bit_int` agrees with the
unconditional two's-complement wrap formula on every integer. -/
theorem to32bit_wrap (x : Int) :
    to32bit x = (x + 2147483648) % 4294967296 - 2147483648 := by
  unfold to32bit
  split
  · next h =>
    have h1 : (0 : Int) ≤ x + 2147483648 := by omega
    have h2 : x + 2147483648 < 4294967296 := by omega
    rw [Int.emod_eq_of_lt h1 h2]
    omega
  · next h =>
    have h3 : x + 2147483647 + 1 = x + 2147483648 := by ring
    rw [h3]
    ring

/-- Truncation is the identity on the signed 32-bit range. -/
theorem to32bit_of_mem_range (x : Int) (h1 : -2147483648 ≤ x)
    (h2 : x ≤ 2147483647) : to32bit x = x := by
  unfold to32bit
  rw [if_pos ⟨h1, h2⟩]

/-! ## Claim theorems -/

/-- C2: in the VM, `EVAL ADD` and `EVAL MUL` push the full-precision
sum and product without truncation, while `EVAL SUB`, `EVAL DIV`,
`EVAL MOD` and `DWRITE` truncate to signed 32-bit two's complement,
and the truncation is `((x + 2^31) mod 2^32) - 2^31`; consequently
`(2^30 + 2^30) mod 7` evaluates to 2. -/
theorem c2_eval_add_mul_full_precision :
    (∀ (L R pc : Int) (s : List Int),
      executeEvalOptimized OP_ADD (R :: L :: s) pc = .ok ((L + R) :: s, pc)) ∧
    (∀ (L R pc : Int) (s : List Int),
      executeEvalOptimized OP_MUL (R :: L :: s) pc = .ok ((L * R) :: s, pc)) ∧
    (∀ (L R pc : Int) (s : List Int),
      executeEvalOptimized OP_SUB (R :: L :: s) pc
        = .ok (to32bit (L - R) :: s, pc)) ∧
    (∀ (L R pc : Int) (s : List Int), R ≠ 0 →
      executeEvalOptimized OP_DIV (R :: L :: s) pc
        = .ok (to32bit (L.fdiv R) :: s, pc)) ∧
    (∀ (L R pc : Int) (s : List Int), R ≠ 0 →
      executeEvalOptimized OP_MOD (R :: L :: s) pc
        = .ok (to32bit (if R > 0 ∧ L.fmod R < 0 then L.fmod R + R
            else L.fmod R) :: s, pc)) ∧
    (∀ (st : VMState) (v : Int) (rest : List Int) (idx : Nat),
      st.stack = v :: rest → idx < st.vars.length →
      execInstr st DWRITE idx
        = .ok (some { st with stack := rest,
                              vars := st.vars.set idx (to32bit v) })) ∧
    (∀ x : Int, to32bit x = (x + 2147483648) % 4294967296 - 2147483648) ∧
    (executeEvalOptimized OP_ADD [1073741824, 1073741824] 0
        = .ok ([2147483648], 0) ∧
      executeEvalOptimized OP_MOD [7, 2147483648] 0 = .ok ([2], 0)) := by
  refine ⟨?_, ?_, ?_, ?_, ?_, ?_, to32bit_wrap, by decide⟩
  · intro L R pc s
    simp [executeEvalOptimized, OP_ADD, OP_COND_JUMP, OP_MUL]
  · intro L R pc s
    simp only [executeEvalOptimized, OP_MUL, OP_COND_JUMP]
    norm_num
    split
    · next h =>
      rcases h with h | h <;> simp [h]
    · split
      · next h => simp [h]
      · split
        · next h => simp [h]
        · rfl
  · intro L R pc s
    simp [executeEvalOptimized, OP_SUB, OP_COND_JUMP, OP_MUL, OP_ADD]
  · intro L R pc s hR
    simp [executeEvalOptimized, OP_DIV, OP_COND_JUMP, OP_MUL, OP_ADD, OP_SUB, hR]
  · intro L R pc s hR
    simp [executeEvalOptimized, OP_MOD, OP_COND_JUMP, OP_MUL, OP_ADD, OP_SUB,
      OP_DIV, hR]
  · intro st v rest idx hstack hidx
    simp [execInstr, NOP, DSTORE, DLOAD, DWRITE, hstack, hidx]

/-- C2 witness: the theorem applied at concrete operands. -/
theorem c2_witness :
    executeEvalOptimized OP_DIV [2, 7] 0 = .ok ([to32bit ((7 : Int).fdiv 2)], 0) :=
  c2_eval_add_mul_full_precision.2.2.2.1 7 2 0 [] (by decide)

/-- C3 counterexample: a `JUMP` to byte address 800 in a one-element
instruction array moves the PC to 100, beyond the code; the run loop
exits normally with no output rather than aborting with an error. -/
theorem c3_counterexample :
    runVM [(JUMP, 800)] 0 "" 10
      = .halted { stack := [], vars := [], pc := 100, inputTokens := [],
                  inputChars := [], output := "" } ∧
    (runVM [(JUMP, 800)] 0 "" 10).isErr = false := by
  constructor <;> decide

/-- C3 (amended): whenever the VM's program counter is at or beyond
the number of instructions without the halt sentinel having been
executed, the main loop exits and execution terminates normally
(silently) instead of aborting with a fatal error. -/
theorem c3_pc_out_of_bounds_silent_halt (code : List (Nat × Nat)) (fuel : Nat)
    (st : VMState) (h : (code.length : Int) ≤ st.pc) :
    runLoop code (fuel + 1) st = .halted st := by
  unfold runLoop
  rw [if_neg]
  omega

/-- C3 witness: the amended theorem at a concrete out-of-bounds state. -/
theorem c3_witness :
    runLoop [(NOP, 0)] 5 (VMState.mk [] [] 100 [] [] "")
      = .halted (VMState.mk [] [] 100 [] [] "") :=
  c3_pc_out_of_bounds_silent_halt [(NOP, 0)] 4 _ (by decide)

/-- C4 counterexample: `EVAL MOD` with left operand 4000000000 and
right operand 4000000001 (both reachable, e.g. as `DSTORE`
immediates) pushes `truncate32(4000000000) = -294967296`, a negative
value, even though the right operand is positive; a full VM program
prints that negative number. -/
theorem c4_counterexample :
    executeEvalOptimized OP_MOD [4000000001, 4000000000] 0
      = .ok ([-294967296], 0) ∧
    runVM [(DSTORE, 4000000000), (DSTORE, 4000000001), (EVAL, OP_MOD),
           (PUTI, 0), (JUMP, HALT_SENTINEL)] 0 "" 10
      = .halted { stack := [], vars := [], pc := 4, inputTokens := [],
                  inputChars := [], output := "-294967296" } ∧
    (-294967296 : Int) < 0 := by
  refine ⟨by decide, by decide, by decide⟩

/-- C4 (amended): for every execution of `EVAL MOD` with right
operand `R > 0`, the pushed value is `truncate32(L mod R)`; it is
non-negative whenever `R ≤ 2^31` (the truncation can make it negative
for larger divisors); and `write = (0 - 7) % 3;` prints 2 through the
whole compile-and-run pipeline. -/
theorem c4_mod_normalization :
    (∀ (L R pc : Int) (s : List Int), 0 < R →
      executeEvalOptimized OP_MOD (R :: L :: s) pc
        = .ok (to32bit (L.fmod R) :: s, pc)) ∧
    (∀ L R : Int, 0 < R → R ≤ 2147483648 → 0 ≤ to32bit (L.fmod R)) ∧
    vmRunSource "write = (0 - 7) % 3;" "" = some "2" := by
  refine ⟨?_, ?_, by decide⟩
  · intro L R pc s hR
    have hR0 : R ≠ 0 := by omega
    have hm : ¬(R > 0 ∧ L.fmod R < 0) := by
      intro hcon
      have := Int.fmod_nonneg' L hR
      omega
    simp [executeEvalOptimized, OP_MOD, OP_COND_JUMP, OP_MUL, OP_ADD, OP_SUB,
      OP_DIV, hR0, hm]
  · intro L R hR hR31
    have h0 : 0 ≤ L.fmod R := Int.fmod_nonneg' L hR
    have h1 : L.fmod R < R := Int.fmod_lt_of_pos L hR
    rw [to32bit_of_mem_range _ (by omega) (by omega)]
    exact h0

/-- C4 witness: the amended theorem applied at `L = -7`, `R = 3`. -/
theorem c4_witness :
    executeEvalOptimized OP_MOD [3, -7] 0 = .ok ([to32bit ((-7 : Int).fmod 3)], 0) :=
  c4_mod_normalization.1 (-7) 3 0 [] (by decide)

/-- C5 counterexample: the tree-walking interpreter does not abort on
division by zero; `write = 7 / 0;` runs to completion and prints 0. -/
theorem c5_counterexample :
    interpRunSource "write = 7 / 0;" "" = some "0" ∧
    visitExpr (.binop (.lit 7) "/" (.lit 0)) { vars := [], inp := [], output := "" }
      = .ok (0, { vars := [], inp := [], output := "" }) := by
  constructor <;> decide

/-- C5 (amended): `EVAL DIV` and `EVAL MOD` with right operand 0
abort the VM with a division-by-zero error, but the tree-walking
interpreter does not abort: `/` and `%` with a zero divisor evaluate
to 0 and execution continues. -/
theorem c5_division_by_zero :
    (∀ (L pc : Int) (s : List Int),
      executeEvalOptimized OP_DIV ((0 : Int) :: L :: s) pc
        = .error "Division by zero") ∧
    (∀ (L pc : Int) (s : List Int),
      executeEvalOptimized OP_MOD ((0 : Int) :: L :: s) pc
        = .error "Division by zero") ∧
    (∀ (L : Int) (st : IState),
      visitExpr (.binop (.lit L) "/" (.lit 0)) st = .ok (0, st)) ∧
    (∀ (L : Int) (st : IState),
      visitExpr (.binop (.lit L) "%" (.lit 0)) st = .ok (0, st)) := by
  refine ⟨?_, ?_, ?_, ?_⟩
  · intro L pc s
    simp [executeEvalOptimized, OP_DIV, OP_COND_JUMP, OP_MUL, OP_ADD, OP_SUB]
  · intro L pc s
    simp [executeEvalOptimized, OP_MOD, OP_COND_JUMP, OP_MUL, OP_ADD, OP_SUB,
      OP_DIV]
  · intro L st
    rfl
  · intro L st
    rfl

/-- C1: for every program of the end-to-end corpus run on its input,
the bytes written to standard output by the tree-walking interpreter
equal the bytes written by the VM running the bytecode compiled from
the same source, and both runs succeed. -/
theorem c1_vm_interpreter_equivalence :
    ∀ p ∈ corpus, interpRunSource p.1 p.2 = vmRunSource p.1 p.2 ∧
      (interpRunSource p.1 p.2).isSome = true := by decide

/-- C1 witness: the theorem applied to the echo-sum scenario. -/
theorem c1_witness :
    interpRunSource "a = read; b = read; write = a + b;" "3 4"
      = vmRunSource "a = read; b = read; write = a + b;" "3 4" ∧
    (interpRunSource "a = read; b = read; write = a + b;" "3 4").isSome = true :=
  c1_vm_interpreter_equivalence ("a = read; b = read; write = a + b;", "3 4")
    (by decide)

/-- C7 counterexample: the lexer also emits a literal token for a
character whose code point exceeds 127; there is no upper bound
check, so a claim restricted to code points at most 127 is false. -/
theorem c7_counterexample :
    tokenizeSrc (String.mk [squote, 'é', squote])
      = .ok [{ type := TType.literal, value := "0xe9" }] ∧
    127 < 'é'.toNat := by
  constructor <;> decide

/-- C7 (amended): for every single-quoted character literal the lexer
emits a literal token whose payload is the hex string of the
character's code point, with no bound check on the code point; it
raises a lexical error on an unterminated literal, and the only
accepted escapes are backslash-n, backslash-backslash and
backslash-quote, any other escape being a lexical error. -/
theorem c7_character_literals :
    (∀ (c : Char) (rest : List Char), c ≠ bslashChar →
      lexCharLit (c :: squote :: rest)
        = .ok ({ type := TType.literal, value := hexString c.toNat }, rest)) ∧
    (∀ rest : List Char,
      lexCharLit (bslashChar :: 'n' :: squote :: rest)
        = .ok ({ type := TType.literal, value := hexString 10 }, rest)) ∧
    (∀ rest : List Char,
      lexCharLit (bslashChar :: bslashChar :: squote :: rest)
        = .ok ({ type := TType.literal, value := hexString 92 }, rest)) ∧
    (∀ rest : List Char,
      lexCharLit (bslashChar :: squote :: squote :: rest)
        = .ok ({ type := TType.literal, value := hexString 39 }, rest)) ∧
    (∀ (e : Char) (rest : List Char), e ≠ 'n' → e ≠ bslashChar → e ≠ squote →
      lexCharLit (bslashChar :: e :: rest)
        = .error "Unsupported escape sequence") ∧
    (∀ (c d : Char) (rest : List Char), c ≠ bslashChar → d ≠ squote →
      lexCharLit (c :: d :: rest) = .error "Unterminated character literal") := by
  refine ⟨?_, ?_, ?_, ?_, ?_, ?_⟩
  · intro c rest hc
    simp [lexCharLit, hc]
  · intro rest; rfl
  · intro rest; rfl
  · intro rest; rfl
  · intro e rest h1 h2 h3
    simp [lexCharLit, h1, h2, h3]
  · intro c d rest hc hd
    simp [lexCharLit, hc, hd]

/-- C7 witness: the amended theorem at the literal for letter a and at
a concrete unterminated literal. -/
theorem c7_witness :
    lexCharLit ('a' :: squote :: [])
      = .ok ({ type := TType.literal, value := hexString 'a'.toNat }, []) ∧
    lexCharLit ('a' :: 'b' :: [])
      = .error "Unterminated character literal" :=
  ⟨c7_character_literals.1 'a' [] (by decide),
   c7_character_literals.2.2.2.2.2 'a' 'b' [] (by decide) (by decide)⟩

/-- C10: reading a never-assigned variable yields 0 in both engines:
the interpreter returns 0 for an identifier absent from its variable
map, and the VM's variable array starts zero-filled, so a `DLOAD`
before any store pushes 0. -/
theorem c10_unassigned_variables_zero :
    (∀ (name : String) (st : IState),
      st.vars.find? (fun p => p.1 == name) = none →
      visitExpr (.ident name) st = .ok (0, st)) ∧
    (∀ (varCount : Nat) (input : String),
      (initState varCount input).vars = List.replicate varCount 0) ∧
    (∀ (varCount idx : Nat) (input : String), idx < varCount →
      execInstr (initState varCount input) DLOAD idx
        = .ok (some { initState varCount input with stack := [(0 : Int)] })) := by
  refine ⟨?_, ?_, ?_⟩
  · intro name st h
    simp [visitExpr, dictGet, h]
  · intro varCount input
    rfl
  · intro varCount idx input h
    simp [execInstr, NOP, DSTORE, DLOAD, initState, List.get?_eq_getElem?,
      List.getElem?_replicate_of_lt h]

/-- C10 witness: the theorem at a concrete absent name and store. -/
theorem c10_witness :
    visitExpr (.ident "x") { vars := [("y", 5)], inp := [], output := "" }
      = .ok (0, { vars := [("y", 5)], inp := [], output := "" }) ∧
    execInstr (initState 3 "") DLOAD 1
      = .ok (some { initState 3 "" with stack := [(0 : Int)] }) :=
  ⟨c10_unassigned_variables_zero.1 "x" _ (by decide),
   c10_unassigned_variables_zero.2.2 3 1 "" (by decide)⟩

/-- Binding a successful `Except` computation reduces. -/
theorem except_bind_ok {α β : Type} (a : α) (f : α → Except String β) :
    (Except.ok a >>= f : Except String β) = f a := rfl

/-- Packing succeeds below 2^32 and yields the four big-endian bytes. -/
theorem packU32_ok {n : Nat} (h : n < 4294967296) : packU32 n = .ok (u32be n) := by
  simp [packU32, u32be, h]

/-- Reading back four big-endian bytes restores the packed value. -/
theorem readU32_u32be {n : Nat} (_h : n < 4294967296) (rest : List Nat) :
    readU32 (u32be n ++ rest) = .ok (n, rest) := by
  simp only [u32be, readU32, List.cons_append, List.nil_append]
  refine congrArg _ (Prod.ext ?_ rfl)
  omega

/-- Serialization of an instruction list succeeds when all fields fit
32 bits, produces 8 bytes per instruction, and decoding that many
instructions from the bytes (with anything appended) restores the
original list. -/
theorem writeInstrs_roundtrip :
    ∀ instrs : List (Nat × Nat),
      (∀ p ∈ instrs, p.1 < 4294967296 ∧ p.2 < 4294967296) →
      ∃ bs, writeInstrs instrs = .ok bs ∧ bs.length = 8 * instrs.length ∧
        ∀ rest, decodeInstrs instrs.length (bs ++ rest) = .ok instrs
  | [], _ => ⟨[], rfl, rfl, fun _ => rfl⟩
  | (opcode, operand) :: tl, h => by
    obtain ⟨hop, hod⟩ := h (opcode, operand) (by simp)
    obtain ⟨bs, hbs, hlen, hdec⟩ :=
      writeInstrs_roundtrip tl (fun p hp => h p (by simp [hp]))
    refine ⟨u32be opcode ++ u32be operand ++ bs, ?_, ?_, ?_⟩
    · simp [writeInstrs, packU32_ok hop, packU32_ok hod, hbs, except_bind_ok]
    · simp [u32be, hlen]
      omega
    · intro rest
      have h1 : u32be opcode ++ u32be operand ++ bs ++ rest
          = u32be opcode ++ (u32be operand ++ (bs ++ rest)) := by
        simp [List.append_assoc]
      simp only [decodeInstrs, h1, readU32_u32be hop, except_bind_ok,
        readU32_u32be hod, hdec rest]

/-- C9 counterexample: the writer does not succeed for every variable
count; at variable count 2^30 the declared data size is 2^32, which
does not fit the u32 header field, and packing raises instead of
producing bytes. -/
theorem c9_counterexample :
    writeBytecode [] 1073741824 = .error "struct.error: argument out of range" := by
  decide

/-- C9 (amended): for every instruction list whose opcodes and
operands fit in u32 and every variable count such that the declared
data size `4 * varCount` and code size `8 * len` also fit in u32, the
writer succeeds, the produced bytes load back to exactly the same
instruction array (of length `code_size / 8`) and variable count
(`data_size / 4`), and the emitted header is exactly 32 bytes
beginning with the ASCII magic, version 1, all fields big-endian. -/
theorem c9_bytecode_roundtrip (instrs : List (Nat × Nat)) (varCount : Nat)
    (hops : ∀ p ∈ instrs, p.1 < 4294967296 ∧ p.2 < 4294967296)
    (hvar : varCount * 4 < 4294967296)
    (hcode : instrs.length * 8 < 4294967296) :
    ∃ bytes, writeBytecode instrs varCount = .ok bytes ∧
      loadBytecode bytes = .ok (instrs, varCount) ∧
      bytes.take 32 = MAGIC ++ u32be 1 ++ u32be (varCount * 4)
        ++ u32be (instrs.length * 8) ++ [0, 0, 0, 0] ∧
      (MAGIC ++ u32be 1 ++ u32be (varCount * 4) ++ u32be (instrs.length * 8)
        ++ [0, 0, 0, 0]).length = 32 ∧
      bytes.take 16 = MAGIC := by
  obtain ⟨bs, hbs, hlen, hdec⟩ := writeInstrs_roundtrip instrs hops
  have hbytes : writeBytecode instrs varCount
      = .ok (MAGIC ++ u32be 1 ++ u32be (varCount * 4) ++ u32be (instrs.length * 8)
          ++ [0, 0, 0, 0] ++ bs) := by
    simp [writeBytecode, packU32_ok (show (1 : Nat) < 4294967296 by norm_num),
      packU32_ok hvar, packU32_ok hcode, hbs, except_bind_ok]
  refine ⟨_, hbytes, ?_, ?_, ?_, ?_⟩
  · have hmagic : (MAGIC ++ u32be 1 ++ u32be (varCount * 4)
        ++ u32be (instrs.length * 8) ++ [0, 0, 0, 0] ++ bs).take 16 = MAGIC := by
      have : MAGIC ++ u32be 1 ++ u32be (varCount * 4) ++ u32be (instrs.length * 8)
          ++ [0, 0, 0, 0] ++ bs
          = MAGIC ++ (u32be 1 ++ (u32be (varCount * 4) ++ (u32be (instrs.length * 8)
              ++ ([0, 0, 0, 0] ++ bs)))) := by simp [List.append_assoc]
      rw [this, List.take_left' (by rfl)]
    have hdrop : (MAGIC ++ u32be 1 ++ u32be (varCount * 4)
        ++ u32be (instrs.length * 8) ++ [0, 0, 0, 0] ++ bs).drop 16
        = u32be 1 ++ (u32be (varCount * 4) ++ (u32be (instrs.length * 8)
            ++ ([0, 0, 0, 0] ++ bs))) := by
      have : MAGIC ++ u32be 1 ++ u32be (varCount * 4) ++ u32be (instrs.length * 8)
          ++ [0, 0, 0, 0] ++ bs
          = MAGIC ++ (u32be 1 ++ (u32be (varCount * 4) ++ (u32be (instrs.length * 8)
              ++ ([0, 0, 0, 0] ++ bs)))) := by simp [List.append_assoc]
      rw [this, List.drop_left' (by rfl)]
    simp only [loadBytecode, hmagic, hdrop, ne_eq, not_true_eq_false, if_false,
      readU32_u32be (show (1 : Nat) < 4294967296 by norm_num), except_bind_ok,
      readU32_u32be hvar, readU32_u32be hcode, reduceIte]
    have hdrop4 : ([0, 0, 0, 0] ++ bs : List Nat).drop 4 = bs := rfl
    have htake : bs.take (instrs.length * 8) = bs :=
      List.take_of_length_le (by omega)
    have hdiv8 : instrs.length * 8 / 8 = instrs.length := by omega
    have hdiv4 : varCount * 4 / 4 = varCount := by omega
    rw [hdrop4, htake, hdiv8, hdiv4]
    have := hdec []
    rw [List.append_nil] at this
    simp [this, except_bind_ok]
  · have : MAGIC ++ u32be 1 ++ u32be (varCount * 4) ++ u32be (instrs.length * 8)
        ++ [0, 0, 0, 0] ++ bs
        = (MAGIC ++ u32be 1 ++ u32be (varCount * 4) ++ u32be (instrs.length * 8)
            ++ [0, 0, 0, 0]) ++ bs := by simp [List.append_assoc]
    rw [this, List.take_left' (by simp [MAGIC, u32be])]
  · simp [MAGIC, u32be]
  · have : MAGIC ++ u32be 1 ++ u32be (varCount * 4) ++ u32be (instrs.length * 8)
        ++ [0, 0, 0, 0] ++ bs
        = MAGIC ++ (u32be 1 ++ (u32be (varCount * 4) ++ (u32be (instrs.length * 8)
            ++ ([0, 0, 0, 0] ++ bs)))) := by simp [List.append_assoc]
    rw [this, List.take_left' (by rfl)]

/-- C9 witness: the amended theorem at a concrete two-instruction
program with one variable. -/
theorem c9_witness :
    ∃ bytes, writeBytecode [(DSTORE, 7), (JUMP, HALT_SENTINEL)] 1 = .ok bytes ∧
      loadBytecode bytes = .ok ([(DSTORE, 7), (JUMP, HALT_SENTINEL)], 1) ∧
      bytes.take 32 = MAGIC ++ u32be 1 ++ u32be (1 * 4)
        ++ u32be ([(DSTORE, 7), (JUMP, HALT_SENTINEL)].length * 8) ++ [0, 0, 0, 0] ∧
      (MAGIC ++ u32be 1 ++ u32be (1 * 4)
        ++ u32be ([(DSTORE, 7), (JUMP, HALT_SENTINEL)].length * 8)
        ++ [0, 0, 0, 0]).length = 32 ∧
      bytes.take 16 = MAGIC :=
  c9_bytecode_roundtrip [(DSTORE, 7), (JUMP, HALT_SENTINEL)] 1 (by decide)
    (by decide) (by decide)

/-- Inversion of a successful `Except` bind. -/
theorem bind_ok_inv {α β : Type} {x : Except String α} {f : α → Except String β}
    {b : β} (h : (x >>= f) = .ok b) : ∃ a, x = .ok a ∧ f a = .ok b := by
  cases x with
  | ok a => exact ⟨a, rfl, h⟩
  | error e => exact absurd h (by simp [Bind.bind, Except.bind])

/-- A successful `eatTok` consumed exactly the head token. -/
theorem eatTok_ok_inv {ts : List Token} {tt : TType} {tv : Option String}
    {t : Token} {rest : List Token} (h : eatTok ts tt tv = .ok (t, rest)) :
    ts = t :: rest := by
  cases ts with
  | nil => exact absurd h (by simp [eatTok])
  | cons t' rest' =>
    cases tv with
    | none =>
      simp only [eatTok] at h
      split at h
      · cases h
        rfl
      · exact absurd h (by simp)
    | some v =>
      simp only [eatTok] at h
      split at h
      · split at h
        · cases h
          rfl
        · exact absurd h (by simp)
      · exact absurd h (by simp)

/-- Goodness of a token stream passes to its tail. -/
theorem goodToksB_tail {t : Token} {ts : List Token}
    (h : goodToksB (t :: ts) = true) : goodToksB ts = true := by
  simp only [goodToksB, List.all_cons, Bool.and_eq_true] at h
  exact h.2

/-- Goodness transported along an equation whose sides are only
definitionally equal to the lists at hand. -/
theorem goodToksB_tail_of_eq {xs ys : List Token} {t : Token}
    (h : xs = t :: ys) (hg : goodToksB xs = true) : goodToksB ys = true :=
  goodToksB_tail (h ▸ hg)

/-- In a good token stream, a literal head has a parseable payload. -/
theorem goodToksB_lit {t : Token} {ts : List Token}
    (h : goodToksB (t :: ts) = true) (hl : t.type = .literal) :
    (hexVal? t.value).isSome = true := by
  simp only [goodToksB, List.all_cons, Bool.and_eq_true] at h
  rcases h with ⟨h1, _⟩
  simpa [hl] using h1

/-- The generator's operator table covers the operators the parser
matches in each of its loops. -/
theorem opMap_isSome_of_mul {v : String} (h : v = "*" ∨ v = "/" ∨ v = "%") :
    (opMap v).isSome = true := by
  rcases h with h | h | h <;> simp [h, opMap]

theorem opMap_isSome_of_add {v : String} (h : v = "+" ∨ v = "-") :
    (opMap v).isSome = true := by
  rcases h with h | h <;> simp [h, opMap]

theorem opMap_isSome_of_cmp {v : String}
    (h : v = ">" ∨ v = "<" ∨ v = ">=" ∨ v = "<=") : (opMap v).isSome = true := by
  rcases h with h | h | h | h <;> simp [h, opMap]

theorem opMap_isSome_of_eq {v : String} (h : v = "==" ∨ v = "!=") :
    (opMap v).isSome = true := by
  rcases h with h | h <;> simp [h, opMap]

/-- Every expression the compiler parser produces from a good token
stream has operators from the generator's table and parseable literal
payloads, and leaves a good remainder of tokens. -/
theorem parseExprGroupC_good : ∀ fuel : Nat,
    (∀ {ts e rest}, goodToksB ts = true →
      parsePrimaryC fuel ts = .ok (e, rest) →
      goodExprC e = true ∧ goodToksB rest = true) ∧
    (∀ {ts left e rest}, goodToksB ts = true → goodExprC left = true →
      parseFactorLoopC fuel left ts = .ok (e, rest) →
      goodExprC e = true ∧ goodToksB rest = true) ∧
    (∀ {ts e rest}, goodToksB ts = true →
      parseFactorC fuel ts = .ok (e, rest) →
      goodExprC e = true ∧ goodToksB rest = true) ∧
    (∀ {ts left e rest}, goodToksB ts = true → goodExprC left = true →
      parseTermLoopC fuel left ts = .ok (e, rest) →
      goodExprC e = true ∧ goodToksB rest = true) ∧
    (∀ {ts e rest}, goodToksB ts = true →
      parseTermC fuel ts = .ok (e, rest) →
      goodExprC e = true ∧ goodToksB rest = true) ∧
    (∀ {ts left e rest}, goodToksB ts = true → goodExprC left = true →
      parseCompLoopC fuel left ts = .ok (e, rest) →
      goodExprC e = true ∧ goodToksB rest = true) ∧
    (∀ {ts e rest}, goodToksB ts = true →
      parseComparisonC fuel ts = .ok (e, rest) →
      goodExprC e = true ∧ goodToksB rest = true) ∧
    (∀ {ts left e rest}, goodToksB ts = true → goodExprC left = true →
      parseEqLoopC fuel left ts = .ok (e, rest) →
      goodExprC e = true ∧ goodToksB rest = true) ∧
    (∀ {ts e rest}, goodToksB ts = true →
      parseEqualityC fuel ts = .ok (e, rest) →
      goodExprC e = true ∧ goodToksB rest = true) ∧
    (∀ {ts e rest}, goodToksB ts = true →
      parseExpressionC fuel ts = .ok (e, rest) →
      goodExprC e = true ∧ goodToksB rest = true) := by
  intro fuel
  induction fuel with
  | zero =>
    exact ⟨fun _ hp => absurd hp (by simp [parsePrimaryC]),
      fun _ _ hp => absurd hp (by simp [parseFactorLoopC]),
      fun _ hp => absurd hp (by simp [parseFactorC]),
      fun _ _ hp => absurd hp (by simp [parseTermLoopC]),
      fun _ hp => absurd hp (by simp [parseTermC]),
      fun _ _ hp => absurd hp (by simp [parseCompLoopC]),
      fun _ hp => absurd hp (by simp [parseComparisonC]),
      fun _ _ hp => absurd hp (by simp [parseEqLoopC]),
      fun _ hp => absurd hp (by simp [parseEqualityC]),
      fun _ hp => absurd hp (by simp [parseExpressionC])⟩
  | succ n ih =>
    obtain ⟨ihP, ihFL, ihF, ihTL, ihT, ihCL, ihC, ihEL, ihQ, ihX⟩ := ih
    refine ⟨?_, ?_, ?_, ?_, ?_, ?_, ?_, ?_, ?_, ?_⟩
    · intro ts e rest hg hp
      cases ts with
      | nil => exact absurd hp (by simp [parsePrimaryC])
      | cons t rest' =>
        simp only [parsePrimaryC] at hp
        split at hp
        · next hlit =>
          cases hp
          refine ⟨?_, goodToksB_tail hg⟩
          simpa [goodExprC] using goodToksB_lit hg hlit
        · split at hp
          · cases hp
            exact ⟨rfl, goodToksB_tail hg⟩
          · split at hp
            · cases hp
              exact ⟨rfl, goodToksB_tail hg⟩
            · split at hp
              · obtain ⟨⟨e1, ts1⟩, hx, hp2⟩ := bind_ok_inv hp
                obtain ⟨⟨tk, ts2⟩, he, hp3⟩ := bind_ok_inv hp2
                cases hp3
                have h1 := ihX (goodToksB_tail hg) hx
                have h2 : ts1 = tk :: ts2 := eatTok_ok_inv he
                exact ⟨h1.1, goodToksB_tail (h2 ▸ h1.2)⟩
              · exact absurd hp (by simp)
    · intro ts left e rest hg hl hp
      cases ts with
      | nil =>
        simp only [parseFactorLoopC] at hp
        cases hp
        exact ⟨hl, hg⟩
      | cons t rest' =>
        simp only [parseFactorLoopC] at hp
        split at hp
        · next hcond =>
          obtain ⟨⟨tk, ts1⟩, he, hp2⟩ := bind_ok_inv hp
          obtain ⟨⟨right, ts2⟩, hpr, hp3⟩ := bind_ok_inv hp2
          injection eatTok_ok_inv he with h1 h2
          subst h2
          have hR := ihP (goodToksB_tail hg) hpr
          have hb : goodExprC (.binop left t.value right) = true := by
            simp only [goodExprC, Bool.and_eq_true]
            exact ⟨⟨opMap_isSome_of_mul hcond.2, hl⟩, hR.1⟩
          exact ihFL hR.2 hb hp3
        · cases hp
          exact ⟨hl, hg⟩
    · intro ts e rest hg hp
      simp only [parseFactorC] at hp
      obtain ⟨⟨left, ts1⟩, hpl, hp2⟩ := bind_ok_inv hp
      have h1 := ihP hg hpl
      exact ihFL h1.2 h1.1 hp2
    · intro ts left e rest hg hl hp
      cases ts with
      | nil =>
        simp only [parseTermLoopC] at hp
        cases hp
        exact ⟨hl, hg⟩
      | cons t rest' =>
        simp only [parseTermLoopC] at hp
        split at hp
        · next hcond =>
          obtain ⟨⟨tk, ts1⟩, he, hp2⟩ := bind_ok_inv hp
          obtain ⟨⟨right, ts2⟩, hpr, hp3⟩ := bind_ok_inv hp2
          injection eatTok_ok_inv he with h1 h2
          subst h2
          have hR := ihF (goodToksB_tail hg) hpr
          have hb : goodExprC (.binop left t.value right) = true := by
            simp only [goodExprC, Bool.and_eq_true]
            exact ⟨⟨opMap_isSome_of_add hcond.2, hl⟩, hR.1⟩
          exact ihTL hR.2 hb hp3
        · cases hp
          exact ⟨hl, hg⟩
    · intro ts e rest hg hp
      simp only [parseTermC] at hp
      obtain ⟨⟨left, ts1⟩, hpl, hp2⟩ := bind_ok_inv hp
      have h1 := ihF hg hpl
      exact ihTL h1.2 h1.1 hp2
    · intro ts left e rest hg hl hp
      cases ts with
      | nil =>
        simp only [parseCompLoopC] at hp
        cases hp
        exact ⟨hl, hg⟩
      | cons t rest' =>
        simp only [parseCompLoopC] at hp
        split at hp
        · next hcond =>
          obtain ⟨⟨tk, ts1⟩, he, hp2⟩ := bind_ok_inv hp
          obtain ⟨⟨right, ts2⟩, hpr, hp3⟩ := bind_ok_inv hp2
          injection eatTok_ok_inv he with h1 h2
          subst h2
          have hR := ihT (goodToksB_tail hg) hpr
          have hb : goodExprC (.binop left t.value right) = true := by
            simp only [goodExprC, Bool.and_eq_true]
            exact ⟨⟨opMap_isSome_of_cmp hcond.2, hl⟩, hR.1⟩
          exact ihCL hR.2 hb hp3
        · cases hp
          exact ⟨hl, hg⟩
    · intro ts e rest hg hp
      simp only [parseComparisonC] at hp
      obtain ⟨⟨left, ts1⟩, hpl, hp2⟩ := bind_ok_inv hp
      have h1 := ihT hg hpl
      exact ihCL h1.2 h1.1 hp2
    · intro ts left e rest hg hl hp
      cases ts with
      | nil =>
        simp only [parseEqLoopC] at hp
        cases hp
        exact ⟨hl, hg⟩
      | cons t rest' =>
        simp only [parseEqLoopC] at hp
        split at hp
        · next hcond =>
          obtain ⟨⟨tk, ts1⟩, he, hp2⟩ := bind_ok_inv hp
          obtain ⟨⟨right, ts2⟩, hpr, hp3⟩ := bind_ok_inv hp2
          injection eatTok_ok_inv he with h1 h2
          subst h2
          have hR := ihC (goodToksB_tail hg) hpr
          have hb : goodExprC (.binop left t.value right) = true := by
            simp only [goodExprC, Bool.and_eq_true]
            exact ⟨⟨opMap_isSome_of_eq hcond.2, hl⟩, hR.1⟩
          exact ihEL hR.2 hb hp3
        · cases hp
          exact ⟨hl, hg⟩
    · intro ts e rest hg hp
      simp only [parseEqualityC] at hp
      obtain ⟨⟨left, ts1⟩, hpl, hp2⟩ := bind_ok_inv hp
      have h1 := ihC hg hpl
      exact ihEL h1.2 h1.1 hp2
    · intro ts e rest hg hp
      simp only [parseExpressionC] at hp
      exact ihQ hg hp

/-- Every statement (and statement list) the compiler parser produces
from a good token stream has good expressions everywhere, and leaves
a good remainder of tokens. -/
theorem parseStmtGroupC_good : ∀ fuel : Nat,
    (∀ {ts s rest}, goodToksB ts = true →
      parseStatementC fuel ts = .ok (s, rest) →
      goodStmtC s = true ∧ goodToksB rest = true) ∧
    (∀ {ts s rest}, goodToksB ts = true →
      parseAssignC fuel ts = .ok (s, rest) →
      goodStmtC s = true ∧ goodToksB rest = true) ∧
    (∀ {ts s rest}, goodToksB ts = true →
      parseIfC fuel ts = .ok (s, rest) →
      goodStmtC s = true ∧ goodToksB rest = true) ∧
    (∀ {ts s rest}, goodToksB ts = true →
      parseWhileC fuel ts = .ok (s, rest) →
      goodStmtC s = true ∧ goodToksB rest = true) ∧
    (∀ {ts ss rest}, goodToksB ts = true →
      parseStmtLoopC fuel ts = .ok (ss, rest) →
      goodStmtsC ss = true ∧ goodToksB rest = true) ∧
    (∀ {ts ss rest}, goodToksB ts = true →
      parseStatementListC fuel ts = .ok (ss, rest) →
      goodStmtsC ss = true ∧ goodToksB rest = true) := by
  intro fuel
  induction fuel with
  | zero =>
    exact ⟨fun _ hp => absurd hp (by simp [parseStatementC]),
      fun _ hp => absurd hp (by simp [parseAssignC]),
      fun _ hp => absurd hp (by simp [parseIfC]),
      fun _ hp => absurd hp (by simp [parseWhileC]),
      fun _ hp => absurd hp (by simp [parseStmtLoopC]),
      fun _ hp => absurd hp (by simp [parseStatementListC])⟩
  | succ n ih =>
    obtain ⟨ihS, ihA, ihI, ihW, ihL, ihSL⟩ := ih
    obtain ⟨_, _, _, _, _, _, _, _, _, hX⟩ := parseExprGroupC_good n
    refine ⟨?_, ?_, ?_, ?_, ?_, ?_⟩
    · intro ts s rest hg hp
      cases ts with
      | nil => exact absurd hp (by simp [parseStatementC])
      | cons t rest' =>
        simp only [parseStatementC] at hp
        split at hp
        · split at hp
          · exact ihI hg hp
          · split at hp
            · exact ihW hg hp
            · split at hp
              · exact ihA hg hp
              · exact absurd hp (by simp)
        · split at hp
          · exact ihA hg hp
          · exact absurd hp (by simp)
    · intro ts s rest hg hp
      cases ts with
      | nil =>
        simp only [parseAssignC] at hp
        obtain ⟨y, hy, _⟩ := bind_ok_inv hp
        exact absurd hy (by simp)
      | cons t rest' =>
        simp only [parseAssignC] at hp
        split at hp
        · rw [except_bind_ok] at hp
          obtain ⟨⟨tk1, ts2⟩, he1, hp2⟩ := bind_ok_inv hp
          obtain ⟨⟨e, ts3⟩, hpe, hp3⟩ := bind_ok_inv hp2
          obtain ⟨⟨tk2, ts4⟩, he2, hp4⟩ := bind_ok_inv hp3
          cases hp4
          have hg2 : goodToksB ts2 = true :=
            goodToksB_tail_of_eq (eatTok_ok_inv he1) (goodToksB_tail hg)
          have hE := hX hg2 hpe
          exact ⟨hE.1, goodToksB_tail_of_eq (eatTok_ok_inv he2) hE.2⟩
        · split at hp
          · rw [except_bind_ok] at hp
            obtain ⟨⟨tk1, ts2⟩, he1, hp2⟩ := bind_ok_inv hp
            obtain ⟨⟨e, ts3⟩, hpe, hp3⟩ := bind_ok_inv hp2
            obtain ⟨⟨tk2, ts4⟩, he2, hp4⟩ := bind_ok_inv hp3
            cases hp4
            have hg2 : goodToksB ts2 = true :=
              goodToksB_tail_of_eq (eatTok_ok_inv he1) (goodToksB_tail hg)
            have hE := hX hg2 hpe
            exact ⟨hE.1, goodToksB_tail_of_eq (eatTok_ok_inv he2) hE.2⟩
          · obtain ⟨y, hy, _⟩ := bind_ok_inv hp
            exact absurd hy (by simp)
    · intro ts s rest hg hp
      simp only [parseIfC] at hp
      obtain ⟨⟨tk1, ts1⟩, he1, hp1⟩ := bind_ok_inv hp
      obtain ⟨⟨tk2, ts2⟩, he2, hp2⟩ := bind_ok_inv hp1
      obtain ⟨⟨cond, ts3⟩, hpc, hp3⟩ := bind_ok_inv hp2
      obtain ⟨⟨tk3, ts4⟩, he3, hp4⟩ := bind_ok_inv hp3
      obtain ⟨⟨tk4, ts5⟩, he4, hp5⟩ := bind_ok_inv hp4
      obtain ⟨⟨thenS, ts6⟩, hpt, hp6⟩ := bind_ok_inv hp5
      obtain ⟨⟨tk5, ts7⟩, he5, hp7⟩ := bind_ok_inv hp6
      have hg1 : goodToksB ts1 = true :=
        goodToksB_tail_of_eq (eatTok_ok_inv he1) hg
      have hg2 : goodToksB ts2 = true :=
        goodToksB_tail_of_eq (eatTok_ok_inv he2) hg1
      have hC := hX hg2 hpc
      have hg4 : goodToksB ts4 = true :=
        goodToksB_tail_of_eq (eatTok_ok_inv he3) hC.2
      have hg5 : goodToksB ts5 = true :=
        goodToksB_tail_of_eq (eatTok_ok_inv he4) hg4
      have hT := ihSL hg5 hpt
      have hg7 : goodToksB ts7 = true :=
        goodToksB_tail_of_eq (eatTok_ok_inv he5) hT.2
      split at hp7
      · split at hp7
        · obtain ⟨⟨tk6, ts8⟩, he6, hp8⟩ := bind_ok_inv hp7
          obtain ⟨⟨tk7, ts9⟩, he7, hp9⟩ := bind_ok_inv hp8
          obtain ⟨⟨elseS, ts10⟩, hpe, hp10⟩ := bind_ok_inv hp9
          obtain ⟨⟨tk8, ts11⟩, he8, hp11⟩ := bind_ok_inv hp10
          cases hp11
          have hg8 : goodToksB ts8 = true :=
            goodToksB_tail_of_eq (eatTok_ok_inv he6) hg7
          have hg9 : goodToksB ts9 = true :=
            goodToksB_tail_of_eq (eatTok_ok_inv he7) hg8
          have hE := ihSL hg9 hpe
          have hgood : (goodExprC cond && goodStmtsC thenS && goodStmtsC elseS)
              = true := by
            rw [Bool.and_eq_true, Bool.and_eq_true]
            exact ⟨⟨hC.1, hT.1⟩, hE.1⟩
          exact ⟨hgood, goodToksB_tail_of_eq (eatTok_ok_inv he8) hE.2⟩
        · cases hp7
          have hgood : (goodExprC cond && goodStmtsC thenS && true) = true := by
            simp [hC.1, hT.1]
          exact ⟨hgood, hg7⟩
      · cases hp7
        have hgood : (goodExprC cond && goodStmtsC thenS && true) = true := by
          simp [hC.1, hT.1]
        exact ⟨hgood, hg7⟩
    · intro ts s rest hg hp
      simp only [parseWhileC] at hp
      obtain ⟨⟨tk1, ts1⟩, he1, hp1⟩ := bind_ok_inv hp
      obtain ⟨⟨tk2, ts2⟩, he2, hp2⟩ := bind_ok_inv hp1
      obtain ⟨⟨cond, ts3⟩, hpc, hp3⟩ := bind_ok_inv hp2
      obtain ⟨⟨tk3, ts4⟩, he3, hp4⟩ := bind_ok_inv hp3
      obtain ⟨⟨tk4, ts5⟩, he4, hp5⟩ := bind_ok_inv hp4
      obtain ⟨⟨body, ts6⟩, hpb, hp6⟩ := bind_ok_inv hp5
      obtain ⟨⟨tk5, ts7⟩, he5, hp7⟩ := bind_ok_inv hp6
      cases hp7
      have hg1 : goodToksB ts1 = true :=
        goodToksB_tail_of_eq (eatTok_ok_inv he1) hg
      have hg2 : goodToksB ts2 = true :=
        goodToksB_tail_of_eq (eatTok_ok_inv he2) hg1
      have hC := hX hg2 hpc
      have hg4 : goodToksB ts4 = true :=
        goodToksB_tail_of_eq (eatTok_ok_inv he3) hC.2
      have hg5 : goodToksB ts5 = true :=
        goodToksB_tail_of_eq (eatTok_ok_inv he4) hg4
      have hB := ihSL hg5 hpb
      have hgood : (goodExprC cond && goodStmtsC body) = true := by
        rw [Bool.and_eq_true]
        exact ⟨hC.1, hB.1⟩
      exact ⟨hgood, goodToksB_tail_of_eq (eatTok_ok_inv he5) hB.2⟩
    · intro ts ss rest hg hp
      cases ts with
      | nil =>
        simp only [parseStmtLoopC] at hp
        cases hp
        exact ⟨rfl, rfl⟩
      | cons t rest' =>
        simp only [parseStmtLoopC] at hp
        split at hp
        · obtain ⟨⟨s1, ts1⟩, hps, hp2⟩ := bind_ok_inv hp
          obtain ⟨⟨ss2, ts2⟩, hpl, hp3⟩ := bind_ok_inv hp2
          cases hp3
          have h1 := ihS hg hps
          have h2 := ihL h1.2 hpl
          refine ⟨?_, h2.2⟩
          simp only [goodStmtsC, Bool.and_eq_true]
          exact ⟨h1.1, h2.1⟩
        · cases hp
          exact ⟨rfl, hg⟩
    · intro ts ss rest hg hp
      cases ts with
      | nil =>
        simp only [parseStatementListC] at hp
        cases hp
        exact ⟨rfl, rfl⟩
      | cons t rest' =>
        simp only [parseStatementListC] at hp
        split at hp
        · obtain ⟨⟨s1, ts1⟩, hps, hp2⟩ := bind_ok_inv hp
          obtain ⟨⟨ss2, ts2⟩, hpl, hp3⟩ := bind_ok_inv hp2
          cases hp3
          have h1 := ihS hg hps
          have h2 := ihL h1.2 hpl
          refine ⟨?_, h2.2⟩
          simp only [goodStmtsC, Bool.and_eq_true]
          exact ⟨h1.1, h2.1⟩
        · cases hp
          exact ⟨rfl, hg⟩

/-- A program accepted by the compiler parser on a good token stream
has good expressions throughout. -/
theorem parseProgramC_good {fuel : Nat} {ts : List Token} {prog : List CStmt}
    (hg : goodToksB ts = true) (hp : parseProgramC fuel ts = .ok prog) :
    goodStmtsC prog = true := by
  unfold parseProgramC at hp
  obtain ⟨⟨ss, rest⟩, hlist, hrest⟩ := bind_ok_inv hp
  have h1 := (parseStmtGroupC_good fuel).2.2.2.2.2 hg hlist
  cases rest with
  | nil =>
    cases hrest
    exact h1.1
  | cons r rs => exact absurd hrest (by simp)

/-- A successful computation has a result value. -/
theorem exists_ok_of_isOk {α : Type} {x : Except String α}
    (h : exceptIsOk x = true) : ∃ a, x = .ok a := by
  cases x with
  | ok a => exact ⟨a, rfl⟩
  | error e => exact absurd h (by simp [exceptIsOk])

/-- Expression code generation succeeds when operators are known,
literal payloads parse, and no `write`/`put` appears in expression
position. -/
theorem genExpr_total : ∀ (e : CExpr) (g : Gen), goodExprC e = true →
    noWritePutExprC e = true → exceptIsOk (genExpr e g) = true
  | .binop l op r, g, hg, hn => by
    simp only [goodExprC, Bool.and_eq_true] at hg
    simp only [noWritePutExprC, Bool.and_eq_true] at hn
    obtain ⟨g1, h1⟩ := exists_ok_of_isOk (genExpr_total l g hg.1.2 hn.1)
    obtain ⟨g2, h2⟩ := exists_ok_of_isOk (genExpr_total r g1 hg.2 hn.2)
    obtain ⟨subOp, hsub⟩ := Option.isSome_iff_exists.mp hg.1.1
    simp only [genExpr, h1, h2, hsub, except_bind_ok]
    rfl
  | .ident name, g, _, _ => rfl
  | .lit value, g, hg, _ => by
    obtain ⟨v, hv⟩ := Option.isSome_iff_exists.mp hg
    simp only [genExpr, hv]
    rfl
  | .special name, g, _, hn => by
    have hn' : ¬(name = "write" ∨ name = "put") := by
      rintro (h | h) <;> subst h <;> simp [noWritePutExprC] at hn
    by_cases h1 : name = "read"
    · simp only [genExpr, h1]
      rfl
    · by_cases h2 : name = "get"
      · simp only [genExpr, if_neg h1, if_pos h2]
        rfl
      · simp only [genExpr, if_neg h1, if_neg h2, if_neg hn']
        rfl

mutual

/-- Statement code generation succeeds under the same conditions. -/
theorem genStmt_total : ∀ (s : CStmt) (g : Gen), goodStmtC s = true →
    noWritePutStmtC s = true → exceptIsOk (genStmt s g) = true
  | .assign lv e, g, hg, hn => by
    obtain ⟨g1, h1⟩ := exists_ok_of_isOk (genExpr_total e g hg hn)
    cases lv with
    | id name =>
      simp only [genStmt, h1, except_bind_ok]
      rfl
    | special name =>
      simp only [genStmt, h1, except_bind_ok]
      split_ifs <;> rfl
  | .ifS cond thenS elseS, g, hg, hn => by
    cases elseS with
    | none =>
      have hgc : goodExprC cond = true := by
        simp only [goodStmtC, Bool.and_eq_true] at hg
        exact hg.1.1
      have hgt : goodStmtsC thenS = true := by
        simp only [goodStmtC, Bool.and_eq_true] at hg
        exact hg.1.2
      have hnc : noWritePutExprC cond = true := by
        simp only [noWritePutStmtC, Bool.and_eq_true] at hn
        exact hn.1.1
      have hnt : noWritePutStmtsC thenS = true := by
        simp only [noWritePutStmtC, Bool.and_eq_true] at hn
        exact hn.1.2
      obtain ⟨g1, h1⟩ := exists_ok_of_isOk (genExpr_total cond g hgc hnc)
      obtain ⟨g5, h5⟩ := exists_ok_of_isOk (genStmts_total thenS
        (emitI (emitI (emitI g1 DSTORE 0) DSTORE 0) EVAL OP_COND_JUMP) hgt hnt)
      simp only [genStmt, h1, h5, except_bind_ok]
      rfl
    | some elseB =>
      have hgc : goodExprC cond = true := by
        simp only [goodStmtC, Bool.and_eq_true] at hg
        exact hg.1.1
      have hgt : goodStmtsC thenS = true := by
        simp only [goodStmtC, Bool.and_eq_true] at hg
        exact hg.1.2
      have hge : goodStmtsC elseB = true := by
        simp only [goodStmtC, Bool.and_eq_true] at hg
        exact hg.2
      have hnc : noWritePutExprC cond = true := by
        simp only [noWritePutStmtC, Bool.and_eq_true] at hn
        exact hn.1.1
      have hnt : noWritePutStmtsC thenS = true := by
        simp only [noWritePutStmtC, Bool.and_eq_true] at hn
        exact hn.1.2
      have hne : noWritePutStmtsC elseB = true := by
        simp only [noWritePutStmtC, Bool.and_eq_true] at hn
        exact hn.2
      obtain ⟨g1, h1⟩ := exists_ok_of_isOk (genExpr_total cond g hgc hnc)
      obtain ⟨g5, h5⟩ := exists_ok_of_isOk (genStmts_total thenS
        (emitI (emitI (emitI g1 DSTORE 0) DSTORE 0) EVAL OP_COND_JUMP) hgt hnt)
      obtain ⟨g7, h7⟩ := exists_ok_of_isOk (genStmts_total elseB
        (emitI g5 JUMP 0) hge hne)
      simp only [genStmt, h1, h5, h7, except_bind_ok]
      rfl
  | .whileS cond body, g, hg, hn => by
    have hgc : goodExprC cond = true := by
      simp only [goodStmtC, Bool.and_eq_true] at hg
      exact hg.1
    have hgb : goodStmtsC body = true := by
      simp only [goodStmtC, Bool.and_eq_true] at hg
      exact hg.2
    have hnc : noWritePutExprC cond = true := by
      simp only [noWritePutStmtC, Bool.and_eq_true] at hn
      exact hn.1
    have hnb : noWritePutStmtsC body = true := by
      simp only [noWritePutStmtC, Bool.and_eq_true] at hn
      exact hn.2
    obtain ⟨g1, h1⟩ := exists_ok_of_isOk (genExpr_total cond g hgc hnc)
    obtain ⟨g5, h5⟩ := exists_ok_of_isOk (genStmts_total body
      (emitI (emitI (emitI g1 DSTORE 0) DSTORE 0) EVAL OP_COND_JUMP) hgb hnb)
    simp only [genStmt, h1, h5, except_bind_ok]
    rfl

theorem genStmts_total : ∀ (ss : List CStmt) (g : Gen), goodStmtsC ss = true →
    noWritePutStmtsC ss = true → exceptIsOk (genStmts ss g) = true
  | [], g, _, _ => rfl
  | s :: rest, g, hg, hn => by
    simp only [goodStmtsC, Bool.and_eq_true] at hg
    simp only [noWritePutStmtsC, Bool.and_eq_true] at hn
    obtain ⟨g1, h1⟩ := exists_ok_of_isOk (genStmt_total s g hg.1 hn.1)
    have h2 := genStmts_total rest g1 hg.2 hn.2
    simp only [genStmts, h1, except_bind_ok]
    exact h2

end

/-- C6 counterexample: the token stream of `a = write;` is accepted
by the compiler parser (the lexer also accepts the source), yet code
generation raises a generation error on the parsed program, because
`write` in expression position reaches `visit_SpecialVar`. -/
theorem c6_counterexample :
    parseThenGenerate "a = write;"
      = .ok (.error "Unexpected special variable in expression") := by
  decide

/-- C6 (amended): code generation can raise a generation error on
parser output, namely exactly when the program uses `write` or `put`
in expression position (which the grammar accepts as a primary); for
every token stream the parser accepts whose literal payloads are
well-formed and whose program has no `write`/`put` in expression
position, code generation completes without raising. -/
theorem c6_generation_total_without_write_put (fuel : Nat) (ts : List Token)
    (prog : List CStmt) (hg : goodToksB ts = true)
    (hp : parseProgramC fuel ts = .ok prog)
    (hn : noWritePutStmtsC prog = true) :
    ∃ g, generate prog = .ok g := by
  have hgood := parseProgramC_good hg hp
  obtain ⟨g1, h1⟩ := exists_ok_of_isOk (genStmts_total prog gen0 hgood hn)
  exact ⟨emitI g1 JUMP HALT_SENTINEL, by simp [generate, h1, except_bind_ok]⟩

/-- C6 witness: the amended theorem at the token stream of `a = 1;`. -/
theorem c6_witness :
    ∃ g, generate [CStmt.assign (.id "a") (.lit "0x1")] = .ok g :=
  c6_generation_total_without_write_put 100
    [{ type := TType.id, value := "a" }, { type := TType.op, value := "=" },
     { type := TType.literal, value := "0x1" }, { type := TType.op, value := ";" }]
    [CStmt.assign (.id "a") (.lit "0x1")] (by decide) rfl (by decide)

/-- Lookup in an appended list, left part. -/
theorem getq_append_left {α : Type} {l t : List α} {i : Nat} (h : i < l.length) :
    (l ++ t).get? i = l.get? i := by
  simp [List.get?_eq_getElem?, List.getElem?_append_left h]

/-- Lookup in an appended list, right part. -/
theorem getq_append_right {α : Type} {l t : List α} {i : Nat} (h : l.length ≤ i) :
    (l ++ t).get? i = t.get? (i - l.length) := by
  simp [List.get?_eq_getElem?, List.getElem?_append_right h]

/-- Lookup after setting another index. -/
theorem getq_set_ne {α : Type} {l : List α} {i j : Nat} {v : α} (h : i ≠ j) :
    (l.set i v).get? j = l.get? j := by
  simp [List.get?_eq_getElem?, List.getElem?_set_ne h]

/-- Lookup at the set index. -/
theorem getq_set_self {α : Type} {l : List α} {i : Nat} {v : α}
    (h : i < l.length) : (l.set i v).get? i = some v := by
  simp [List.get?_eq_getElem?, List.getElem?_set_self h]

/-- A successful lookup is inside the list. -/
theorem getq_some_lt {α : Type} {l : List α} {i : Nat} {v : α}
    (h : l.get? i = some v) : i < l.length := by
  by_contra hc
  rw [List.get?_eq_getElem?, List.getElem?_eq_none (by omega)] at h
  cases h

/-- Lookup beyond the end. -/
theorem getq_none {α : Type} {l : List α} {i : Nat} (h : l.length ≤ i) :
    l.get? i = none := by
  rw [List.get?_eq_getElem?, List.getElem?_eq_none h]

/-- The default lookup agrees with a successful lookup. -/
theorem getD_eq_of_getq {l : List (Nat × Nat)} {i : Nat} {x : Nat × Nat}
    (h : l.get? i = some x) : l.getD i (0, 0) = x := by
  rw [List.get?_eq_getElem?] at h
  simp [List.getD, h]

theorem extendsG_refl (g : Gen) : ExtendsG g g := ⟨[], by simp⟩

theorem extendsG_trans {g1 g2 g3 : Gen} (h1 : ExtendsG g1 g2)
    (h2 : ExtendsG g2 g3) : ExtendsG g1 g3 := by
  obtain ⟨t1, ht1⟩ := h1
  obtain ⟨t2, ht2⟩ := h2
  exact ⟨t1 ++ t2, by simp [ht2, ht1]⟩

theorem extendsG_emit (g : Gen) (op od : Nat) : ExtendsG g (emitI g op od) :=
  ⟨[(op, od)], rfl⟩

theorem extendsG_length {g g' : Gen} (h : ExtendsG g g') :
    g.instrs.length ≤ g'.instrs.length := by
  obtain ⟨t, ht⟩ := h
  simp [ht]

/-- Extension is preserved by a lookup at an index inside the prefix. -/
theorem extendsG_get? {g g' : Gen} (h : ExtendsG g g') {i : Nat}
    (hi : i < g.instrs.length) : g'.instrs.get? i = g.instrs.get? i := by
  obtain ⟨t, ht⟩ := h
  rw [ht, getq_append_left hi]

/-- Patching at an index at or after the prefix keeps the extension. -/
theorem extendsG_patch {g g' : Gen} (h : ExtendsG g g') {idx target : Nat}
    (hidx : g.instrs.length ≤ idx) : ExtendsG g (patchJump g' idx target) := by
  obtain ⟨t, ht⟩ := h
  refine ⟨t.set (idx - g.instrs.length) ((g'.instrs.getD idx (0, 0)).1, target), ?_⟩
  simp only [patchJump, ht]
  rw [List.set_append_right _ _ (by simpa using hidx)]

/-- Lengths are unchanged by patching. -/
theorem patchJump_length (g : Gen) (idx target : Nat) :
    (patchJump g idx target).instrs.length = g.instrs.length := by
  simp [patchJump]

/-- Lookup at a non-patched index. -/
theorem patchJump_get?_ne {g : Gen} {idx target i : Nat} (h : i ≠ idx) :
    (patchJump g idx target).instrs.get? i = g.instrs.get? i := by
  simp only [patchJump]
  exact getq_set_ne (by omega)

/-- Lookup at the patched index keeps the opcode. -/
theorem patchJump_get?_self {g : Gen} {idx target : Nat} {op0 od0 : Nat}
    (h : g.instrs.get? idx = some (op0, od0)) :
    (patchJump g idx target).instrs.get? idx = some (op0, target) := by
  have hlt : idx < g.instrs.length := getq_some_lt h
  simp only [patchJump, getD_eq_of_getq h]
  exact getq_set_self hlt

/-- Beyond the end of the code there is no instruction at all. -/
theorem noCJ_beyond (code : List (Nat × Nat)) : NoCJFrom code code.length := by
  intro i hi h
  rw [getq_none hi] at h
  cases h

/-- Appending a non-`COND_JUMP` instruction preserves the property. -/
theorem noCJFrom_append_one {code : List (Nat × Nat)} {base : Nat}
    (hg : NoCJFrom code base) {op od : Nat}
    (hop : (op, od) ≠ ((EVAL : Nat), (OP_COND_JUMP : Nat))) :
    NoCJFrom (code ++ [(op, od)]) base := by
  intro i hi h
  rcases lt_or_ge i code.length with hlt | hge
  · rw [getq_append_left hlt] at h
    exact hg i hi h
  · rw [getq_append_right hge] at h
    have h0 : i - code.length = 0 ∨ 1 ≤ i - code.length := by omega
    rcases h0 with h0 | h0
    · rw [h0] at h
      exact hop (by simpa using h)
    · rw [getq_none (by simpa using h0)] at h
      cases h

/-- The property composes across an extension step. -/
theorem noCJFrom_compose {g1 g2 : Gen} (hE : ExtendsG g1 g2) {base : Nat}
    (h1 : NoCJFrom g1.instrs base) (h2 : NoCJFrom g2.instrs g1.instrs.length) :
    NoCJFrom g2.instrs base := by
  intro i hi
  rcases lt_or_ge i g1.instrs.length with hlt | hge
  · rw [extendsG_get? hE hlt]
    exact h1 i hi
  · exact h2 i hge

/-- Allocating a variable index does not touch the instruction list. -/
theorem getVarId_instrs (name : String) (g : Gen) :
    ((getVarId name g).2).instrs = g.instrs := by
  unfold getVarId
  split <;> rfl

/-- Pairs with different first components differ. -/
theorem pair_ne_of_fst_ne {a b c d : Nat} (h : a ≠ c) : (a, b) ≠ (c, d) :=
  fun he => absurd (congrArg Prod.fst he) h

/-- Pairs with different second components differ. -/
theorem pair_ne_of_snd_ne {a b c d : Nat} (h : b ≠ d) : (a, b) ≠ (c, d) :=
  fun he => absurd (congrArg Prod.snd he) h

set_option maxHeartbeats 1000000 in
/-- The operator table never yields the conditional-jump sub-op. -/
theorem opMap_ne_condjump {op : String} {subOp : Nat}
    (h : opMap op = some subOp) : subOp ≠ OP_COND_JUMP := by
  intro heq
  subst heq
  have h2 : opMap op ≠ some OP_COND_JUMP := by
    unfold opMap
    split_ifs <;> decide
  exact h2 h

/-- Expression code generation only appends, and never emits an
`EVAL COND_JUMP` instruction. -/
theorem genExpr_region : ∀ (e : CExpr) (g g' : Gen), genExpr e g = .ok g' →
    ExtendsG g g' ∧ NoCJFrom g'.instrs g.instrs.length
  | .binop l op r, g, g', h => by
    simp only [genExpr] at h
    obtain ⟨g1, h1, h'⟩ := bind_ok_inv h
    obtain ⟨g2, h2, h''⟩ := bind_ok_inv h'
    obtain ⟨hE1, hN1⟩ := genExpr_region l g g1 h1
    obtain ⟨hE2, hN2⟩ := genExpr_region r g1 g2 h2
    cases hsub : opMap op with
    | none => rw [hsub] at h''; cases h''
    | some subOp =>
      rw [hsub] at h''
      cases h''
      have hE3 : ExtendsG g2 (emitI g2 EVAL subOp) := extendsG_emit _ _ _
      refine ⟨extendsG_trans (extendsG_trans hE1 hE2) hE3, ?_⟩
      have hN12 : NoCJFrom g2.instrs g.instrs.length :=
        noCJFrom_compose hE2 hN1 hN2
      exact noCJFrom_compose hE3 hN12
        (noCJFrom_append_one (noCJ_beyond _)
          (pair_ne_of_snd_ne (opMap_ne_condjump hsub)))
  | .ident name, g, g', h => by
    simp only [genExpr] at h
    cases h
    constructor
    · exact ⟨[(DLOAD, (getVarId name g).1)], by simp [emitI, getVarId_instrs]⟩
    · have : (emitI (getVarId name g).2 DLOAD (getVarId name g).1).instrs
          = g.instrs ++ [(DLOAD, (getVarId name g).1)] := by
        simp [emitI, getVarId_instrs]
      rw [this]
      exact noCJFrom_append_one (noCJ_beyond _) (pair_ne_of_fst_ne (by decide))
  | .lit value, g, g', h => by
    simp only [genExpr] at h
    cases hv : hexVal? value with
    | none => rw [hv] at h; cases h
    | some v =>
      rw [hv] at h
      cases h
      exact ⟨extendsG_emit _ _ _,
        noCJFrom_append_one (noCJ_beyond _) (pair_ne_of_fst_ne (by decide))⟩
  | .special name, g, g', h => by
    simp only [genExpr] at h
    split_ifs at h
    · cases h
      exact ⟨extendsG_emit _ _ _,
        noCJFrom_append_one (noCJ_beyond _) (pair_ne_of_fst_ne (by decide))⟩
    · cases h
      exact ⟨extendsG_emit _ _ _,
        noCJFrom_append_one (noCJ_beyond _) (pair_ne_of_fst_ne (by decide))⟩
    · cases h
      exact ⟨extendsG_refl _, noCJ_beyond _⟩

/-- Lookup at the appended element. -/
theorem getq_snoc_self {α : Type} (A : List α) (x : α) :
    (A ++ [x]).get? A.length = some x := by
  rw [getq_append_right (Nat.le_refl _)]
  simp

/-- Lookup elsewhere than the appended element. -/
theorem getq_snoc_ne {α : Type} {A : List α} {x : α} {i : Nat}
    (h : i ≠ A.length) : (A ++ [x]).get? i = A.get? i := by
  rcases lt_or_ge i A.length with hlt | hge
  · exact getq_append_left hlt
  · have h1 : A.length + 1 ≤ i := by omega
    rw [getq_append_right (by omega), getq_none (by simp; omega),
      getq_none (by omega)]

/-- An entry with a different opcode is not the conditional jump. -/
theorem entry_ne_cj {code : List (Nat × Nat)} {i op od : Nat}
    (h : code.get? i = some (op, od)) (hop : op ≠ EVAL) :
    code.get? i ≠ some (EVAL, OP_COND_JUMP) :=
  fun hcj => hop (congrArg (fun o => (Option.getD o (0, 0)).1) (h.symm.trans hcj))

/-- A region with no conditional jumps satisfies the trio invariant. -/
theorem trioLe_of_noCJ {code : List (Nat × Nat)} {base : Nat}
    (h : NoCJFrom code base) : CondJumpTrioLe code base :=
  fun i hi hcj => absurd hcj (h i hi)

/-- The trio invariant composes across an extension. -/
theorem trioLe_compose {g1 g2 : Gen} (hE : ExtendsG g1 g2) {base : Nat}
    (hb : base ≤ g1.instrs.length) (h1 : CondJumpTrioLe g1.instrs base)
    (h2 : CondJumpTrioLe g2.instrs g1.instrs.length) :
    CondJumpTrioLe g2.instrs base := by
  intro i hi hcj
  rcases lt_or_ge i g1.instrs.length with hlt | hge
  · have hcj1 : g1.instrs.get? i = some (EVAL, OP_COND_JUMP) := by
      rw [← extendsG_get? hE hlt]
      exact hcj
    obtain ⟨hb2, a, b, ha, hb', hpa, hla, hpb, hlb⟩ := h1 i hi hcj1
    have hlen := extendsG_length hE
    refine ⟨hb2, a, b, ?_, ?_, hpa, by omega, hpb, by omega⟩
    · rw [extendsG_get? hE (by omega)]
      exact ha
    · rw [extendsG_get? hE (by omega)]
      exact hb'
  · obtain ⟨hb2, a, b, ha, hb', hpa, hla, hpb, hlb⟩ := h2 i hge hcj
    exact ⟨by omega, a, b, ha, hb', hpa, hla, hpb, hlb⟩

/-- The trio invariant is preserved by appending one instruction that
is not a conditional jump. -/
theorem trioLe_append_one {code : List (Nat × Nat)} {base : Nat}
    (h : CondJumpTrioLe code base) {op od : Nat}
    (hop : (op, od) ≠ ((EVAL : Nat), (OP_COND_JUMP : Nat))) :
    CondJumpTrioLe (code ++ [(op, od)]) base := by
  intro i hi hcj
  rcases lt_or_ge i code.length with hlt | hge
  · rw [getq_append_left hlt] at hcj
    obtain ⟨hb2, a, b, ha, hb', hpa, hla, hpb, hlb⟩ := h i hi hcj
    have h2 : i - 2 < code.length := by omega
    have h1 : i - 1 < code.length := by omega
    refine ⟨hb2, a, b, ?_, ?_, hpa, ?_, hpb, ?_⟩
    · rw [getq_append_left h2]
      exact ha
    · rw [getq_append_left h1]
      exact hb'
    · simp only [List.length_append, List.length_cons, List.length_nil]
      omega
    · simp only [List.length_append, List.length_cons, List.length_nil]
      omega
  · rcases Nat.eq_or_lt_of_le hge with heq | hgt
    · rw [← heq, getq_snoc_self] at hcj
      exact absurd (Option.some.inj hcj) hop
    · rw [getq_append_right hge, getq_none (by simp; omega)] at hcj
      cases hcj

/-- Emitting lengthens the instruction list by one. -/
theorem emitI_length (g : Gen) (op od : Nat) :
    (emitI g op od).instrs.length = g.instrs.length + 1 := by
  simp [emitI]

mutual

/-- Statement code generation only appends to the instruction list,
and in the appended region every `EVAL COND_JUMP` ends up fully
patched: its two preceding `DSTORE`s carry positive byte addresses
bounded by the code size. -/
theorem genStmt_region : ∀ (s : CStmt) (g g' : Gen), genStmt s g = .ok g' →
    ExtendsG g g' ∧ CondJumpTrioLe g'.instrs g.instrs.length
  | .assign lv e, g, g', h => by
    cases lv with
    | id name =>
      simp only [genStmt] at h
      obtain ⟨g1, h1, h'⟩ := bind_ok_inv h
      obtain ⟨hE1, hN1⟩ := genExpr_region e g g1 h1
      cases h'
      have hinstr : (emitI (getVarId name g1).2 DWRITE (getVarId name g1).1).instrs
          = g1.instrs ++ [(DWRITE, (getVarId name g1).1)] := by
        simp [emitI, getVarId_instrs]
      constructor
      · obtain ⟨t, ht⟩ := id hE1
        exact ⟨t ++ [(DWRITE, (getVarId name g1).1)], by
          rw [hinstr, ht, List.append_assoc]⟩
      · rw [show (emitI (getVarId name g1).2 DWRITE (getVarId name g1).1).instrs
            = g1.instrs ++ [(DWRITE, (getVarId name g1).1)] from hinstr]
        exact trioLe_of_noCJ
          (noCJFrom_append_one hN1 (pair_ne_of_fst_ne (by decide)))
    | special name =>
      simp only [genStmt] at h
      obtain ⟨g1, h1, h'⟩ := bind_ok_inv h
      obtain ⟨hE1, hN1⟩ := genExpr_region e g g1 h1
      split at h'
      · cases h'
        refine ⟨extendsG_trans hE1 (extendsG_emit _ _ _), ?_⟩
        exact trioLe_of_noCJ
          (noCJFrom_append_one hN1 (pair_ne_of_fst_ne (by decide)))
      · split at h'
        · cases h'
          refine ⟨extendsG_trans hE1 (extendsG_emit _ _ _), ?_⟩
          exact trioLe_of_noCJ
            (noCJFrom_append_one hN1 (pair_ne_of_fst_ne (by decide)))
        · cases h'
          exact ⟨hE1, trioLe_of_noCJ hN1⟩
  | .ifS cond thenS elseS, g, g', h => by
    cases elseS with
    | none =>
      simp only [genStmt] at h
      obtain ⟨g1, h1, h'⟩ := bind_ok_inv h
      obtain ⟨g5, h5, h''⟩ := bind_ok_inv h'
      cases h''
      obtain ⟨hE1, hN1⟩ := genExpr_region cond g g1 h1
      obtain ⟨hE5, hT5⟩ := genStmts_region thenS _ g5 h5
      obtain ⟨t1, ht1⟩ := id hE5
      rw [show (emitI (emitI (emitI g1 DSTORE 0) DSTORE 0) EVAL
          OP_COND_JUMP).instrs.length = g1.instrs.length + 3 by
            simp only [emitI_length],
        show (emitI g1 DSTORE 0).instrs.length = g1.instrs.length + 1 by
          simp only [emitI_length]]
      have hg4i : (emitI (emitI (emitI g1 DSTORE 0) DSTORE 0) EVAL
          OP_COND_JUMP).instrs
          = ((g1.instrs ++ [(DSTORE, 0)]) ++ [(DSTORE, 0)])
            ++ [(EVAL, OP_COND_JUMP)] := rfl
      have hnp : g.instrs.length ≤ g1.instrs.length := extendsG_length hE1
      have hpq : g1.instrs.length + 3 ≤ g5.instrs.length := by
        have h9 := extendsG_length hE5
        rw [hg4i] at h9
        simp at h9
        omega
      have hg5p : g5.instrs.get? g1.instrs.length = some (DSTORE, 0) := by
        rw [ht1, hg4i]
        rw [show ((g1.instrs ++ [(DSTORE, 0)]) ++ [(DSTORE, 0)])
            ++ [(EVAL, OP_COND_JUMP)] ++ t1
            = (g1.instrs ++ [(DSTORE, 0)])
              ++ ([(DSTORE, 0)] ++ ([(EVAL, OP_COND_JUMP)] ++ t1)) by
          simp [List.append_assoc]]
        rw [getq_append_left (by simp)]
        exact getq_snoc_self _ _
      have hg5p1 : g5.instrs.get? (g1.instrs.length + 1)
          = some (DSTORE, 0) := by
        rw [ht1, hg4i]
        rw [show ((g1.instrs ++ [(DSTORE, 0)]) ++ [(DSTORE, 0)])
            ++ [(EVAL, OP_COND_JUMP)] ++ t1
            = ((g1.instrs ++ [(DSTORE, 0)]) ++ [(DSTORE, 0)])
              ++ ([(EVAL, OP_COND_JUMP)] ++ t1) by
          simp [List.append_assoc]]
        rw [getq_append_left (by simp)]
        rw [show g1.instrs.length + 1 = (g1.instrs ++ [(DSTORE, 0)]).length by
          simp]
        exact getq_snoc_self _ _
      have e_p : (patchJump (patchJump g5 g1.instrs.length
          ((g1.instrs.length + 3) * 8)) (g1.instrs.length + 1)
          (g5.instrs.length * 8)).instrs.get? g1.instrs.length
          = some (DSTORE, (g1.instrs.length + 3) * 8) := by
        rw [patchJump_get?_ne (by omega)]
        exact patchJump_get?_self hg5p
      have e_p1 : (patchJump (patchJump g5 g1.instrs.length
          ((g1.instrs.length + 3) * 8)) (g1.instrs.length + 1)
          (g5.instrs.length * 8)).instrs.get? (g1.instrs.length + 1)
          = some (DSTORE, g5.instrs.length * 8) := by
        apply patchJump_get?_self
        rw [patchJump_get?_ne (by omega)]
        exact hg5p1
      have transfer_hi : ∀ i, g1.instrs.length + 3 ≤ i →
          (patchJump (patchJump g5 g1.instrs.length
            ((g1.instrs.length + 3) * 8)) (g1.instrs.length + 1)
            (g5.instrs.length * 8)).instrs.get? i = g5.instrs.get? i := by
        intro i hi3
        rw [patchJump_get?_ne (by omega), patchJump_get?_ne (by omega)]
      have transfer_lo : ∀ i, i < g1.instrs.length →
          (patchJump (patchJump g5 g1.instrs.length
            ((g1.instrs.length + 3) * 8)) (g1.instrs.length + 1)
            (g5.instrs.length * 8)).instrs.get? i = g1.instrs.get? i := by
        intro i hilt
        rw [patchJump_get?_ne (by omega), patchJump_get?_ne (by omega)]
        rw [ht1, hg4i]
        rw [show ((g1.instrs ++ [(DSTORE, 0)]) ++ [(DSTORE, 0)])
            ++ [(EVAL, OP_COND_JUMP)] ++ t1
            = g1.instrs ++ ([(DSTORE, 0)] ++ ([(DSTORE, 0)]
              ++ ([(EVAL, OP_COND_JUMP)] ++ t1))) by
          simp [List.append_assoc]]
        exact getq_append_left hilt
      have hfinallen : (patchJump (patchJump g5 g1.instrs.length
          ((g1.instrs.length + 3) * 8)) (g1.instrs.length + 1)
          (g5.instrs.length * 8)).instrs.length = g5.instrs.length := by
        rw [patchJump_length, patchJump_length]
      constructor
      · apply extendsG_patch _ (by omega)
        apply extendsG_patch _ (by omega)
        exact extendsG_trans hE1 (extendsG_trans
          (extendsG_trans (extendsG_trans (extendsG_emit _ _ _)
            (extendsG_emit _ _ _)) (extendsG_emit _ _ _)) hE5)
      · intro i hi hcj
        rcases lt_or_ge i g1.instrs.length with hlo | hge
        · exact absurd ((transfer_lo i hlo).symm.trans hcj) (hN1 i hi)
        · rcases Nat.lt_or_ge i (g1.instrs.length + 3) with hmid | hhi
          · rcases Nat.eq_or_lt_of_le hge with he0 | hgt0
            · rw [← he0] at hcj
              exact absurd hcj (entry_ne_cj e_p (by decide))
            · rcases Nat.eq_or_lt_of_le hgt0 with he1 | hgt1
              · rw [← he1] at hcj
                exact absurd hcj (entry_ne_cj e_p1 (by decide))
              · refine ⟨by omega, (g1.instrs.length + 3) * 8,
                  g5.instrs.length * 8, ?_, ?_, by omega, ?_, by omega, ?_⟩
                · rw [show i - 2 = g1.instrs.length by omega]
                  exact e_p
                · rw [show i - 1 = g1.instrs.length + 1 by omega]
                  exact e_p1
                · rw [hfinallen]
                  omega
                · rw [hfinallen]
                  omega
          · have hcj5 : g5.instrs.get? i = some (EVAL, OP_COND_JUMP) :=
              (transfer_hi i hhi).symm.trans hcj
            obtain ⟨hb2, a, b, ha, hb', hpa, hla, hpb, hlb⟩ :=
              hT5 i (by rw [hg4i]; simp; omega) hcj5
            rw [hg4i] at hb2
            simp only [List.length_append, List.length_cons,
              List.length_nil] at hb2
            refine ⟨by omega, a, b, ?_, ?_, hpa, ?_, hpb, ?_⟩
            · rw [transfer_hi (i - 2) (by omega)]
              exact ha
            · rw [transfer_hi (i - 1) (by omega)]
              exact hb'
            · rw [hfinallen]
              exact hla
            · rw [hfinallen]
              exact hlb
    | some elseB =>
      simp only [genStmt] at h
      obtain ⟨g1, h1, h'⟩ := bind_ok_inv h
      obtain ⟨g5, h5, h''⟩ := bind_ok_inv h'
      obtain ⟨g7, h7, h3⟩ := bind_ok_inv h''
      cases h3
      obtain ⟨hE1, hN1⟩ := genExpr_region cond g g1 h1
      obtain ⟨hE5, hT5⟩ := genStmts_region thenS _ g5 h5
      obtain ⟨hE7, hT7⟩ := genStmts_region elseB _ g7 h7
      obtain ⟨t1, ht1⟩ := id hE5
      obtain ⟨t2, ht2⟩ := id hE7
      rw [show (emitI (emitI (emitI g1 DSTORE 0) DSTORE 0) EVAL
          OP_COND_JUMP).instrs.length = g1.instrs.length + 3 by
            simp only [emitI_length],
        show (emitI g1 DSTORE 0).instrs.length = g1.instrs.length + 1 by
          simp only [emitI_length],
        show (emitI g5 JUMP 0).instrs.length = g5.instrs.length + 1 by
          simp only [emitI_length]]
      have hg4i : (emitI (emitI (emitI g1 DSTORE 0) DSTORE 0) EVAL
          OP_COND_JUMP).instrs
          = ((g1.instrs ++ [(DSTORE, 0)]) ++ [(DSTORE, 0)])
            ++ [(EVAL, OP_COND_JUMP)] := rfl
      have hg6i : (emitI g5 JUMP 0).instrs = g5.instrs ++ [(JUMP, 0)] := rfl
      have hnp : g.instrs.length ≤ g1.instrs.length := extendsG_length hE1
      have hpq : g1.instrs.length + 3 ≤ g5.instrs.length := by
        have h9 := extendsG_length hE5
        rw [hg4i] at h9
        simp at h9
        omega
      have hqL : g5.instrs.length + 1 ≤ g7.instrs.length := by
        have h9 := extendsG_length hE7
        rw [hg6i] at h9
        simp at h9
        omega
      have hfinallen : (patchJump (patchJump (patchJump g7 g5.instrs.length
          (g7.instrs.length * 8)) g1.instrs.length
          ((g1.instrs.length + 3) * 8)) (g1.instrs.length + 1)
          ((g5.instrs.length + 1) * 8)).instrs.length = g7.instrs.length := by
        rw [patchJump_length, patchJump_length, patchJump_length]
      have hg7q : g7.instrs.get? g5.instrs.length = some (JUMP, 0) := by
        rw [ht2, hg6i]
        rw [show g5.instrs ++ [(JUMP, 0)] ++ t2
            = g5.instrs ++ ([(JUMP, 0)] ++ t2) by simp]
        rw [getq_append_right (Nat.le_refl _)]
        simp
      have hg7p : g7.instrs.get? g1.instrs.length = some (DSTORE, 0) := by
        rw [ht2, hg6i, ht1, hg4i]
        rw [show ((g1.instrs ++ [(DSTORE, 0)]) ++ [(DSTORE, 0)])
            ++ [(EVAL, OP_COND_JUMP)] ++ t1 ++ [(JUMP, 0)] ++ t2
            = (g1.instrs ++ [(DSTORE, 0)]) ++ ([(DSTORE, 0)]
              ++ ([(EVAL, OP_COND_JUMP)] ++ (t1 ++ ([(JUMP, 0)] ++ t2)))) by
          simp [List.append_assoc]]
        rw [getq_append_left (by simp)]
        exact getq_snoc_self _ _
      have hg7p1 : g7.instrs.get? (g1.instrs.length + 1)
          = some (DSTORE, 0) := by
        rw [ht2, hg6i, ht1, hg4i]
        rw [show ((g1.instrs ++ [(DSTORE, 0)]) ++ [(DSTORE, 0)])
            ++ [(EVAL, OP_COND_JUMP)] ++ t1 ++ [(JUMP, 0)] ++ t2
            = ((g1.instrs ++ [(DSTORE, 0)]) ++ [(DSTORE, 0)])
              ++ ([(EVAL, OP_COND_JUMP)] ++ (t1 ++ ([(JUMP, 0)] ++ t2))) by
          simp [List.append_assoc]]
        rw [getq_append_left (by simp)]
        rw [show g1.instrs.length + 1 = (g1.instrs ++ [(DSTORE, 0)]).length by
          simp]
        exact getq_snoc_self _ _
      have e_q : (patchJump (patchJump (patchJump g7 g5.instrs.length
          (g7.instrs.length * 8)) g1.instrs.length
          ((g1.instrs.length + 3) * 8)) (g1.instrs.length + 1)
          ((g5.instrs.length + 1) * 8)).instrs.get? g5.instrs.length
          = some (JUMP, g7.instrs.length * 8) := by
        rw [patchJump_get?_ne (by omega), patchJump_get?_ne (by omega)]
        exact patchJump_get?_self hg7q
      have e_p : (patchJump (patchJump (patchJump g7 g5.instrs.length
          (g7.instrs.length * 8)) g1.instrs.length
          ((g1.instrs.length + 3) * 8)) (g1.instrs.length + 1)
          ((g5.instrs.length + 1) * 8)).instrs.get? g1.instrs.length
          = some (DSTORE, (g1.instrs.length + 3) * 8) := by
        rw [patchJump_get?_ne (by omega)]
        apply patchJump_get?_self
        rw [patchJump_get?_ne (by omega)]
        exact hg7p
      have e_p1 : (patchJump (patchJump (patchJump g7 g5.instrs.length
          (g7.instrs.length * 8)) g1.instrs.length
          ((g1.instrs.length + 3) * 8)) (g1.instrs.length + 1)
          ((g5.instrs.length + 1) * 8)).instrs.get? (g1.instrs.length + 1)
          = some (DSTORE, (g5.instrs.length + 1) * 8) := by
        apply patchJump_get?_self
        rw [patchJump_get?_ne (by omega), patchJump_get?_ne (by omega)]
        exact hg7p1
      have transfer_then : ∀ i, g1.instrs.length + 3 ≤ i →
          i < g5.instrs.length →
          (patchJump (patchJump (patchJump g7 g5.instrs.length
            (g7.instrs.length * 8)) g1.instrs.length
            ((g1.instrs.length + 3) * 8)) (g1.instrs.length + 1)
            ((g5.instrs.length + 1) * 8)).instrs.get? i
            = g5.instrs.get? i := by
        intro i hi3 hiq
        rw [patchJump_get?_ne (by omega), patchJump_get?_ne (by omega),
          patchJump_get?_ne (by omega), ht2, hg6i]
        rw [show g5.instrs ++ [(JUMP, 0)] ++ t2
            = g5.instrs ++ ([(JUMP, 0)] ++ t2) by simp]
        exact getq_append_left hiq
      have transfer_else : ∀ i, g5.instrs.length + 1 ≤ i →
          (patchJump (patchJump (patchJump g7 g5.instrs.length
            (g7.instrs.length * 8)) g1.instrs.length
            ((g1.instrs.length + 3) * 8)) (g1.instrs.length + 1)
            ((g5.instrs.length + 1) * 8)).instrs.get? i
            = g7.instrs.get? i := by
        intro i hi3
        rw [patchJump_get?_ne (by omega), patchJump_get?_ne (by omega),
          patchJump_get?_ne (by omega)]
      have transfer_lo : ∀ i, i < g1.instrs.length →
          (patchJump (patchJump (patchJump g7 g5.instrs.length
            (g7.instrs.length * 8)) g1.instrs.length
            ((g1.instrs.length + 3) * 8)) (g1.instrs.length + 1)
            ((g5.instrs.length + 1) * 8)).instrs.get? i
            = g1.instrs.get? i := by
        intro i hilt
        rw [patchJump_get?_ne (by omega), patchJump_get?_ne (by omega),
          patchJump_get?_ne (by omega), ht2, hg6i, ht1, hg4i]
        rw [show ((g1.instrs ++ [(DSTORE, 0)]) ++ [(DSTORE, 0)])
            ++ [(EVAL, OP_COND_JUMP)] ++ t1 ++ [(JUMP, 0)] ++ t2
            = g1.instrs ++ ([(DSTORE, 0)] ++ ([(DSTORE, 0)]
              ++ ([(EVAL, OP_COND_JUMP)] ++ (t1 ++ ([(JUMP, 0)] ++ t2))))) by
          simp [List.append_assoc]]
        exact getq_append_left hilt
      constructor
      · apply extendsG_patch _ (by omega)
        apply extendsG_patch _ (by omega)
        apply extendsG_patch _ (by omega)
        exact extendsG_trans hE1 (extendsG_trans (extendsG_trans
          (extendsG_trans (extendsG_trans (extendsG_trans
            (extendsG_emit _ _ _) (extendsG_emit _ _ _))
              (extendsG_emit _ _ _)) hE5) (extendsG_emit _ _ _)) hE7)
      · intro i hi hcj
        rcases lt_or_ge i g1.instrs.length with hlo | hge
        · exact absurd ((transfer_lo i hlo).symm.trans hcj) (hN1 i hi)
        · rcases Nat.lt_or_ge i (g1.instrs.length + 3) with hmid | hhi
          · rcases Nat.eq_or_lt_of_le hge with he0 | hgt0
            · rw [← he0] at hcj
              exact absurd hcj (entry_ne_cj e_p (by decide))
            · rcases Nat.eq_or_lt_of_le hgt0 with he1 | hgt1
              · rw [← he1] at hcj
                exact absurd hcj (entry_ne_cj e_p1 (by decide))
              · refine ⟨by omega, (g1.instrs.length + 3) * 8,
                  (g5.instrs.length + 1) * 8, ?_, ?_, by omega, ?_,
                  by omega, ?_⟩
                · rw [show i - 2 = g1.instrs.length by omega]
                  exact e_p
                · rw [show i - 1 = g1.instrs.length + 1 by omega]
                  exact e_p1
                · rw [hfinallen]
                  omega
                · rw [hfinallen]
                  omega
          · rcases Nat.lt_or_ge i g5.instrs.length with hthen | hge5
            · have hcj5 : g5.instrs.get? i = some (EVAL, OP_COND_JUMP) :=
                (transfer_then i hhi hthen).symm.trans hcj
              obtain ⟨hb2, a, b, ha, hb', hpa, hla, hpb, hlb⟩ :=
                hT5 i (by rw [hg4i]; simp; omega) hcj5
              rw [hg4i] at hb2
              simp only [List.length_append, List.length_cons,
                List.length_nil] at hb2
              have ha2 : i - 2 < g5.instrs.length := by omega
              have ha1 : i - 1 < g5.instrs.length := by omega
              refine ⟨by omega, a, b, ?_, ?_, hpa, ?_, hpb, ?_⟩
              · rw [transfer_then (i - 2) (by omega) ha2]
                exact ha
              · rw [transfer_then (i - 1) (by omega) ha1]
                exact hb'
              · rw [hfinallen]
                omega
              · rw [hfinallen]
                omega
            · rcases Nat.eq_or_lt_of_le hge5 with heq | hgt5
              · rw [← heq] at hcj
                exact absurd hcj (entry_ne_cj e_q (by decide))
              · have hcj7 : g7.instrs.get? i = some (EVAL, OP_COND_JUMP) :=
                  (transfer_else i (by omega)).symm.trans hcj
                obtain ⟨hb2, a, b, ha, hb', hpa, hla, hpb, hlb⟩ :=
                  hT7 i (by rw [hg6i]; simp; omega) hcj7
                rw [hg6i] at hb2
                simp only [List.length_append, List.length_cons,
                  List.length_nil] at hb2
                refine ⟨by omega, a, b, ?_, ?_, hpa, ?_, hpb, ?_⟩
                · rw [transfer_else (i - 2) (by omega)]
                  exact ha
                · rw [transfer_else (i - 1) (by omega)]
                  exact hb'
                · rw [hfinallen]
                  exact hla
                · rw [hfinallen]
                  exact hlb
  | .whileS cond body, g, g', h => by
    simp only [genStmt] at h
    obtain ⟨g1, h1, h'⟩ := bind_ok_inv h
    obtain ⟨g5, h5, h''⟩ := bind_ok_inv h'
    cases h''
    obtain ⟨hE1, hN1⟩ := genExpr_region cond g g1 h1
    obtain ⟨hE5, hT5⟩ := genStmts_region body _ g5 h5
    obtain ⟨t1, ht1⟩ := id hE5
    rw [show (emitI (emitI (emitI g1 DSTORE 0) DSTORE 0) EVAL
        OP_COND_JUMP).instrs.length = g1.instrs.length + 3 by
          simp only [emitI_length],
      show (emitI g1 DSTORE 0).instrs.length = g1.instrs.length + 1 by
        simp only [emitI_length],
      show (emitI g5 JUMP (g.instrs.length * 8)).instrs.length
          = g5.instrs.length + 1 by simp only [emitI_length]]
    have hg4i : (emitI (emitI (emitI g1 DSTORE 0) DSTORE 0) EVAL
        OP_COND_JUMP).instrs
        = ((g1.instrs ++ [(DSTORE, 0)]) ++ [(DSTORE, 0)])
          ++ [(EVAL, OP_COND_JUMP)] := rfl
    have hg6i : (emitI g5 JUMP (g.instrs.length * 8)).instrs
        = g5.instrs ++ [(JUMP, g.instrs.length * 8)] := rfl
    have hnp : g.instrs.length ≤ g1.instrs.length := extendsG_length hE1
    have hpq : g1.instrs.length + 3 ≤ g5.instrs.length := by
      have h9 := extendsG_length hE5
      rw [hg4i] at h9
      simp at h9
      omega
    have hfinallen : (patchJump (patchJump (emitI g5 JUMP
        (g.instrs.length * 8)) g1.instrs.length ((g1.instrs.length + 3) * 8))
        (g1.instrs.length + 1)
        ((g5.instrs.length + 1) * 8)).instrs.length
        = g5.instrs.length + 1 := by
      rw [patchJump_length, patchJump_length, hg6i]
      simp
    have hg6p : (emitI g5 JUMP (g.instrs.length * 8)).instrs.get?
        g1.instrs.length = some (DSTORE, 0) := by
      rw [hg6i, ht1, hg4i]
      rw [show ((g1.instrs ++ [(DSTORE, 0)]) ++ [(DSTORE, 0)])
          ++ [(EVAL, OP_COND_JUMP)] ++ t1 ++ [(JUMP, g.instrs.length * 8)]
          = (g1.instrs ++ [(DSTORE, 0)]) ++ ([(DSTORE, 0)]
            ++ ([(EVAL, OP_COND_JUMP)]
              ++ (t1 ++ [(JUMP, g.instrs.length * 8)]))) by
        simp [List.append_assoc]]
      rw [getq_append_left (by simp)]
      exact getq_snoc_self _ _
    have hg6p1 : (emitI g5 JUMP (g.instrs.length * 8)).instrs.get?
        (g1.instrs.length + 1) = some (DSTORE, 0) := by
      rw [hg6i, ht1, hg4i]
      rw [show ((g1.instrs ++ [(DSTORE, 0)]) ++ [(DSTORE, 0)])
          ++ [(EVAL, OP_COND_JUMP)] ++ t1 ++ [(JUMP, g.instrs.length * 8)]
          = ((g1.instrs ++ [(DSTORE, 0)]) ++ [(DSTORE, 0)])
            ++ ([(EVAL, OP_COND_JUMP)]
              ++ (t1 ++ [(JUMP, g.instrs.length * 8)])) by
        simp [List.append_assoc]]
      rw [getq_append_left (by simp)]
      rw [show g1.instrs.length + 1 = (g1.instrs ++ [(DSTORE, 0)]).length by
        simp]
      exact getq_snoc_self _ _
    have e_p : (patchJump (patchJump (emitI g5 JUMP (g.instrs.length * 8))
        g1.instrs.length ((g1.instrs.length + 3) * 8)) (g1.instrs.length + 1)
        ((g5.instrs.length + 1) * 8)).instrs.get?
        g1.instrs.length = some (DSTORE, (g1.instrs.length + 3) * 8) := by
      rw [patchJump_get?_ne (by omega)]
      exact patchJump_get?_self hg6p
    have e_p1 : (patchJump (patchJump (emitI g5 JUMP (g.instrs.length * 8))
        g1.instrs.length ((g1.instrs.length + 3) * 8)) (g1.instrs.length + 1)
        ((g5.instrs.length + 1) * 8)).instrs.get? (g1.instrs.length + 1)
        = some (DSTORE, (g5.instrs.length + 1) * 8) := by
      apply patchJump_get?_self
      rw [patchJump_get?_ne (by omega)]
      exact hg6p1
    have e_q : (patchJump (patchJump (emitI g5 JUMP (g.instrs.length * 8))
        g1.instrs.length ((g1.instrs.length + 3) * 8)) (g1.instrs.length + 1)
        ((g5.instrs.length + 1) * 8)).instrs.get?
        g5.instrs.length = some (JUMP, g.instrs.length * 8) := by
      rw [patchJump_get?_ne (by omega), patchJump_get?_ne (by omega), hg6i]
      exact getq_snoc_self _ _
    have transfer_body : ∀ i, g1.instrs.length + 3 ≤ i →
        i ≠ g5.instrs.length →
        (patchJump (patchJump (emitI g5 JUMP (g.instrs.length * 8))
          g1.instrs.length ((g1.instrs.length + 3) * 8)) (g1.instrs.length + 1)
          ((g5.instrs.length + 1) * 8)).instrs.get? i
          = g5.instrs.get? i := by
      intro i hi3 hiq
      rw [patchJump_get?_ne (by omega), patchJump_get?_ne (by omega), hg6i]
      exact getq_snoc_ne hiq
    have transfer_lo : ∀ i, i < g1.instrs.length →
        (patchJump (patchJump (emitI g5 JUMP (g.instrs.length * 8))
          g1.instrs.length ((g1.instrs.length + 3) * 8)) (g1.instrs.length + 1)
          ((g5.instrs.length + 1) * 8)).instrs.get? i
          = g1.instrs.get? i := by
      intro i hilt
      rw [patchJump_get?_ne (by omega), patchJump_get?_ne (by omega), hg6i,
        ht1, hg4i]
      rw [show ((g1.instrs ++ [(DSTORE, 0)]) ++ [(DSTORE, 0)])
          ++ [(EVAL, OP_COND_JUMP)] ++ t1 ++ [(JUMP, g.instrs.length * 8)]
          = g1.instrs ++ ([(DSTORE, 0)] ++ ([(DSTORE, 0)]
            ++ ([(EVAL, OP_COND_JUMP)]
              ++ (t1 ++ [(JUMP, g.instrs.length * 8)])))) by
        simp [List.append_assoc]]
      exact getq_append_left hilt
    constructor
    · apply extendsG_patch _ (by omega)
      apply extendsG_patch _ (by omega)
      exact extendsG_trans hE1 (extendsG_trans (extendsG_trans
        (extendsG_trans (extendsG_trans (extendsG_emit _ _ _)
          (extendsG_emit _ _ _)) (extendsG_emit _ _ _)) hE5)
            (extendsG_emit _ _ _))
    · intro i hi hcj
      rcases lt_or_ge i g1.instrs.length with hlo | hge
      · exact absurd ((transfer_lo i hlo).symm.trans hcj) (hN1 i hi)
      · rcases Nat.lt_or_ge i (g1.instrs.length + 3) with hmid | hhi
        · rcases Nat.eq_or_lt_of_le hge with he0 | hgt0
          · rw [← he0] at hcj
            exact absurd hcj (entry_ne_cj e_p (by decide))
          · rcases Nat.eq_or_lt_of_le hgt0 with he1 | hgt1
            · rw [← he1] at hcj
              exact absurd hcj (entry_ne_cj e_p1 (by decide))
            · refine ⟨by omega, (g1.instrs.length + 3) * 8,
                (g5.instrs.length + 1) * 8, ?_, ?_, by omega, ?_,
                by omega, ?_⟩
              · rw [show i - 2 = g1.instrs.length by omega]
                exact e_p
              · rw [show i - 1 = g1.instrs.length + 1 by omega]
                exact e_p1
              · rw [hfinallen]
                omega
              · rw [hfinallen]
                omega
        · by_cases hiq : i = g5.instrs.length
          · rw [hiq] at hcj
            exact absurd hcj (entry_ne_cj e_q (by decide))
          · have hcj5 : g5.instrs.get? i = some (EVAL, OP_COND_JUMP) :=
              (transfer_body i hhi hiq).symm.trans hcj
            obtain ⟨hb2, a, b, ha, hb', hpa, hla, hpb, hlb⟩ :=
              hT5 i (by rw [hg4i]; simp; omega) hcj5
            rw [hg4i] at hb2
            simp only [List.length_append, List.length_cons,
              List.length_nil] at hb2
            have ha2 : i - 2 < g5.instrs.length := getq_some_lt ha
            have ha1 : i - 1 < g5.instrs.length := getq_some_lt hb'
            refine ⟨by omega, a, b, ?_, ?_, hpa, ?_, hpb, ?_⟩
            · rw [transfer_body (i - 2) (by omega) (by omega)]
              exact ha
            · rw [transfer_body (i - 1) (by omega) (by omega)]
              exact hb'
            · rw [hfinallen]
              omega
            · rw [hfinallen]
              omega

theorem genStmts_region : ∀ (ss : List CStmt) (g g' : Gen),
    genStmts ss g = .ok g' →
    ExtendsG g g' ∧ CondJumpTrioLe g'.instrs g.instrs.length
  | [], g, g', h => by
    cases h
    exact ⟨extendsG_refl _, trioLe_of_noCJ (noCJ_beyond _)⟩
  | s :: rest, g, g', h => by
    simp only [genStmts] at h
    obtain ⟨g1, h1, h'⟩ := bind_ok_inv h
    obtain ⟨hE1, hT1⟩ := genStmt_region s g g1 h1
    obtain ⟨hE2, hT2⟩ := genStmts_region rest g1 g' h'
    exact ⟨extendsG_trans hE1 hE2,
      trioLe_compose hE2 (extendsG_length hE1) hT1 hT2⟩

end

/-- C8 counterexample: for the program `a = 0;` generation succeeds and
the emitted code contains instructions whose operand is `0`, the very
value used as the patch placeholder, so no final code can be recognised
as fully patched by comparing operands against the placeholder value. -/
theorem c8_counterexample :
    generate [CStmt.assign (CLvalue.id "a") (CExpr.lit "0x0")]
      = .ok { instrs := [(DSTORE, 0), (DWRITE, 0), (JUMP, HALT_SENTINEL)],
              varTable := [("a", 0)], varCount := 1 } := by decide

/-- C8 (amended): after `generate` succeeds, every `EVAL COND_JUMP`
instruction is immediately preceded by two `DSTORE` instructions whose
operands are strictly positive byte addresses strictly below
`8 * len(code)`; the original first conjunct — that no operand of any
instruction equals the emission placeholder `0` — is false, since
literal `0` operands appear in correct code. -/
theorem c8_patching_completeness (prog : List CStmt) (gf : Gen)
    (h : generate prog = .ok gf) : CondJumpPatched gf.instrs := by
  simp only [generate] at h
  obtain ⟨g, hg, h'⟩ := bind_ok_inv h
  cases h'
  obtain ⟨hE, hT⟩ := genStmts_region prog gen0 g hg
  intro i hcj
  have hgf : (emitI g JUMP HALT_SENTINEL).instrs
      = g.instrs ++ [(JUMP, HALT_SENTINEL)] := rfl
  rw [hgf] at hcj
  have hilt : i < g.instrs.length := by
    rcases lt_or_ge i g.instrs.length with h1 | h2
    · exact h1
    · rcases Nat.eq_or_lt_of_le h2 with heq | hgt
      · rw [← heq, getq_snoc_self] at hcj
        exact absurd (Option.some.inj hcj) (by decide)
      · rw [getq_append_right h2, getq_none (by simp; omega)] at hcj
        cases hcj
  rw [getq_append_left hilt] at hcj
  obtain ⟨hb2, a, b, ha, hb', hpa, hla, hpb, hlb⟩ :=
    hT i (Nat.zero_le i) hcj
  have hlen2 : i - 2 < g.instrs.length := by omega
  have hlen1 : i - 1 < g.instrs.length := by omega
  refine ⟨by omega, a, b, ?_, ?_, hpa, ?_, hpb, ?_⟩
  · rw [hgf, getq_append_left hlen2]
    exact ha
  · rw [hgf, getq_append_left hlen1]
    exact hb'
  · rw [hgf]
    simp only [List.length_append, List.length_cons, List.length_nil]
    omega
  · rw [hgf]
    simp only [List.length_append, List.length_cons, List.length_nil]
    omega

/-- C8 witness: the amended theorem applied to a concrete `if`
program, whose generated code has one fully patched conditional jump. -/
theorem c8_witness :
    generate [CStmt.ifS (CExpr.lit "0x1")
        [CStmt.assign (CLvalue.id "a") (CExpr.lit "0x2")] none]
      = .ok { instrs := [(DSTORE, 1), (DSTORE, 32), (DSTORE, 48),
                (EVAL, OP_COND_JUMP), (DSTORE, 2), (DWRITE, 0),
                (JUMP, HALT_SENTINEL)],
              varTable := [("a", 0)], varCount := 1 }
      ∧ CondJumpPatched [(DSTORE, 1), (DSTORE, 32), (DSTORE, 48),
          (EVAL, OP_COND_JUMP), (DSTORE, 2), (DWRITE, 0),
          (JUMP, HALT_SENTINEL)] :=
  ⟨by decide,
    c8_patching_completeness
      [CStmt.ifS (CExpr.lit "0x1")
        [CStmt.assign (CLvalue.id "a") (CExpr.lit "0x2")] none]
      { instrs := [(DSTORE, 1), (DSTORE, 32), (DSTORE, 48),
          (EVAL, OP_COND_JUMP), (DSTORE, 2), (DWRITE, 0),
          (JUMP, HALT_SENTINEL)],
        varTable := [("a", 0)], varCount := 1 }
      (by decide)⟩

end Mandrill
